import Mathlib

/-
Verification development for the directory-monitor repository
(src/directory_monitor.py and src/trend_graphs_module.py).

Modelling conventions:
* Python floats are modelled as exact rationals (ℚ).  Every arithmetic
  expression of the source is translated literally; rounding of binary
  floating point is idealised away.
* Python lists and dicts are modelled as Lean lists; a dict is an
  insertion-ordered association list (matching CPython semantics).
* Python `list.sort` / `sorted` (a stable sort) and SQLite `ORDER BY`
  are modelled by the stable insertion sort `sortD` below: for a total
  preorder the stable-sorted permutation is unique, so any stable sort
  is an exact model.
* SQLite tables are modelled as append-only Lean lists of row records
  with explicit AUTOINCREMENT counters.
* `datetime.now().isoformat()` results are threaded in as explicit
  string parameters (timestamps are compared as strings, exactly as
  SQLite compares TEXT and Python compares str).
-/

/-
Part 1: a stable insertion sort, modelling Python sorted(..)/list.sort
(with reverse=True expressed by a "greater or equal" boolean comparator)
and SQLite ORDER BY.  `insertD r x l` places `x` before the first
element `y` with `r x y = true`; processing the original list left to
right therefore keeps earlier elements before later ones whenever the
comparator ties, which is exactly Python sort stability.
-/

def insertD {α : Type} (r : α → α → Bool) (x : α) : List α → List α
  | [] => [x]
  | y :: ys => if r x y then x :: y :: ys else y :: insertD r x ys

def sortD {α : Type} (r : α → α → Bool) : List α → List α
  | [] => []
  | x :: xs => insertD r x (sortD r xs)

theorem insertD_perm {α : Type} (r : α → α → Bool) (x : α) (l : List α) :
    (insertD r x l).Perm (x :: l) := by
  induction l with
  | nil => exact List.Perm.refl _
  | cons y ys ih =>
    by_cases h : r x y = true
    · simp [insertD, h]
    · simp only [insertD, h, if_false, Bool.not_eq_true] at *
      exact (List.Perm.cons y ih).trans (List.Perm.swap x y ys)

theorem sortD_perm {α : Type} (r : α → α → Bool) (l : List α) :
    (sortD r l).Perm l := by
  induction l with
  | nil => exact List.Perm.refl _
  | cons x xs ih =>
    exact (insertD_perm r x (sortD r xs)).trans (List.Perm.cons x ih)

theorem length_sortD {α : Type} (r : α → α → Bool) (l : List α) :
    (sortD r l).length = l.length :=
  (sortD_perm r l).length_eq

theorem mem_sortD {α : Type} {r : α → α → Bool} {a : α} {l : List α} :
    a ∈ sortD r l ↔ a ∈ l :=
  (sortD_perm r l).mem_iff

theorem sublist_insertD {α : Type} (r : α → α → Bool) (x : α) (l : List α) :
    l.Sublist (insertD r x l) := by
  induction l with
  | nil => simp [insertD]
  | cons y ys ih =>
    by_cases h : r x y = true
    · simp only [insertD, h, if_true]
      exact List.Sublist.cons x (List.Sublist.refl _)
    · simp only [insertD, h, if_false, Bool.not_eq_true]
      exact List.Sublist.cons₂ y ih

theorem pairwise_insertD {α : Type} {r : α → α → Bool} {R : α → α → Prop}
    (htrans : ∀ a b c : α, R a b → R b c → R a c)
    (x : α) (l : List α) (hl : l.Pairwise R)
    (hsound : ∀ y ∈ l, (r x y = true → R x y) ∧ (r x y = false → R y x)) :
    (insertD r x l).Pairwise R := by
  induction l with
  | nil => simp [insertD]
  | cons y ys ih =>
    rcases List.pairwise_cons.mp hl with ⟨hy, hys⟩
    by_cases h : r x y = true
    · simp only [insertD, h, if_true]
      refine List.pairwise_cons.mpr ⟨?_, hl⟩
      intro z hz
      rcases List.mem_cons.mp hz with hz | hz
      · exact hz ▸ (hsound y (List.mem_cons_self y ys)).1 h
      · exact htrans x y z ((hsound y (List.mem_cons_self y ys)).1 h) (hy z hz)
    · simp only [insertD, h, if_false, Bool.not_eq_true]
      refine List.pairwise_cons.mpr ⟨?_, ?_⟩
      · intro z hz
        have hz2 : z ∈ x :: ys := (insertD_perm r x ys).mem_iff.mp hz
        rcases List.mem_cons.mp hz2 with hz2 | hz2
        · subst hz2
          exact (hsound y (List.mem_cons_self y ys)).2 (Bool.not_eq_true _ ▸ h)
        · exact hy z hz2
      · exact ih hys (fun z hz => hsound z (List.mem_cons_of_mem y hz))

theorem pairwise_sortD {α : Type} {r : α → α → Bool} {R : α → α → Prop}
    (htrans : ∀ a b c : α, R a b → R b c → R a c)
    (l : List α)
    (hsound : ∀ a ∈ l, ∀ b ∈ l, (r a b = true → R a b) ∧ (r a b = false → R b a)) :
    (sortD r l).Pairwise R := by
  induction l with
  | nil => simp [sortD]
  | cons x xs ih =>
    refine pairwise_insertD htrans x (sortD r xs)
      (ih (fun a ha b hb => hsound a (List.mem_cons_of_mem x ha) b (List.mem_cons_of_mem x hb)))
      ?_
    intro y hy
    have hy2 : y ∈ xs := mem_sortD.mp hy
    exact hsound x (List.mem_cons_self x xs) y (List.mem_cons_of_mem x hy2)

theorem sublist_insertD_of_mem {α : Type} {r : α → α → Bool} {x b : α} {l : List α}
    (hr : r x b = true) (hb : b ∈ l) : [x, b].Sublist (insertD r x l) := by
  induction l with
  | nil => cases hb
  | cons y ys ih =>
    by_cases h : r x y = true
    · simp only [insertD, h, if_true]
      exact List.Sublist.cons₂ x (List.singleton_sublist.mpr hb)
    · simp only [insertD, h, if_false, Bool.not_eq_true]
      rcases List.mem_cons.mp hb with hb | hb
      · exact absurd (hb ▸ hr) (by simp [h, hb])
      · exact List.Sublist.cons y (ih hb)

theorem sortD_stable {α : Type} {r : α → α → Bool} {a b : α} {l : List α}
    (hr : r a b = true) (h : [a, b].Sublist l) : [a, b].Sublist (sortD r l) := by
  induction l with
  | nil => cases h
  | cons x xs ih =>
    cases h with
    | cons _ h2 =>
      exact (ih h2).trans (sublist_insertD r x (sortD r xs))
    | cons₂ _ h2 =>
      have hb : b ∈ sortD r xs := mem_sortD.mpr (List.singleton_sublist.mp h2)
      exact sublist_insertD_of_mem hr hb

theorem sublist_pair_decomp {α : Type} {a b : α} {l : List α}
    (h : [a, b].Sublist l) :
    ∃ m₁ m₂ m₃ : List α, l = m₁ ++ a :: m₂ ++ b :: m₃ := by
  induction l with
  | nil => cases h
  | cons x xs ih =>
    cases h with
    | cons _ h2 =>
      rcases ih h2 with ⟨m₁, m₂, m₃, rfl⟩
      exact ⟨x :: m₁, m₂, m₃, rfl⟩
    | cons₂ _ h2 =>
      rcases List.append_of_mem (List.singleton_sublist.mp h2) with ⟨s, t, rfl⟩
      exact ⟨[], s, t, rfl⟩

theorem sublist_pair_take {α : Type} {a b : α} {k : ℕ} {m : List α}
    (hnd : m.Nodup) (h : [a, b].Sublist m) (hb : b ∈ m.take k) :
    [a, b].Sublist (m.take k) := by
  rcases sublist_pair_decomp h with ⟨m₁, m₂, m₃, rfl⟩
  set X : List α := m₁ ++ a :: m₂ with hX
  have hmX : m₁ ++ a :: m₂ ++ b :: m₃ = X ++ b :: m₃ := by simp [hX]
  by_cases hk : k ≤ X.length
  · exfalso
    have hsub : (m₁ ++ a :: m₂ ++ b :: m₃).take k
        = (X ++ b :: m₃).take k := by rw [hmX]
    have htake : (X ++ b :: m₃).take k = X.take k := by
      rw [List.take_append_eq_append_take]
      have : k - X.length = 0 := Nat.sub_eq_zero_of_le hk
      simp [this]
    have hbX : b ∈ X := by
      have := hb
      rw [hsub, htake] at this
      exact List.mem_of_mem_take this
    have hnd2 : (X ++ b :: m₃).Nodup := hmX ▸ hnd
    rcases List.nodup_append.mp hnd2 with ⟨_, _, hdisj⟩
    exact hdisj hbX (List.mem_cons_self b m₃)
  · push_neg at hk
    have hXb : m₁ ++ a :: m₂ ++ b :: m₃ = (X ++ [b]) ++ m₃ := by simp [hX]
    rw [hXb, List.take_append_eq_append_take]
    have hlen : (X ++ [b]).length ≤ k := by
      simp only [List.length_append, List.length_singleton]
      omega
    rw [List.take_of_length_le hlen]
    have hab : [a, b].Sublist (X ++ [b]) := by
      have ha : [a].Sublist X := by
        simp only [hX]
        exact List.singleton_sublist.mpr (by simp)
      have : ([a] ++ [b]).Sublist (X ++ [b]) := List.Sublist.append ha (List.Sublist.refl _)
      simpa using this
    exact hab.trans (List.sublist_append_left _ _)

/-
Part 2: strings, association lists (Python dicts), JSON serialisation
with sorted keys, UTF-8 and MD5 (hashlib.md5(..).hexdigest()).
Characters are compared by code point, matching both Python str
comparison and SQLite TEXT comparison (memcmp over UTF-8).
-/

def charListLe : List Char → List Char → Bool
  | [], _ => true
  | _ :: _, [] => false
  | a :: as, b :: bs =>
    if a.toNat < b.toNat then true
    else if b.toNat < a.toNat then false
    else charListLe as bs

def strLeB (a b : String) : Bool := charListLe a.data b.data

theorem char_toNat_inj {a b : Char} (h : a.toNat = b.toNat) : a = b :=
  Char.eq_of_val_eq (UInt32.eq_of_toBitVec_eq (by
    have hb : a.val.toBitVec.toNat = b.val.toBitVec.toNat := h
    exact BitVec.toNat_injective hb))

theorem charListLe_total (a b : List Char) :
    charListLe a b = true ∨ charListLe b a = true := by
  induction a generalizing b with
  | nil => left; rfl
  | cons x xs ih =>
    cases b with
    | nil => right; rfl
    | cons y ys =>
      rcases Nat.lt_trichotomy x.toNat y.toNat with h | h | h
      · left; simp [charListLe, h]
      · have hxy : ¬ x.toNat < y.toNat := by omega
        have hyx : ¬ y.toNat < x.toNat := by omega
        rcases ih ys with h2 | h2
        · left; simp [charListLe, hxy, hyx, h2]
        · right; simp [charListLe, hxy, hyx, h2]
      · right; simp [charListLe, h]

theorem charListLe_trans {a b c : List Char}
    (h₁ : charListLe a b = true) (h₂ : charListLe b c = true) :
    charListLe a c = true := by
  induction a generalizing b c with
  | nil => rfl
  | cons x xs ih =>
    cases b with
    | nil => simp [charListLe] at h₁
    | cons y ys =>
      cases c with
      | nil => simp [charListLe] at h₂
      | cons z zs =>
        simp only [charListLe] at h₁ h₂ ⊢
        rcases Nat.lt_trichotomy x.toNat y.toNat with hxy | hxy | hxy
        · rcases Nat.lt_trichotomy y.toNat z.toNat with hyz | hyz | hyz
          · have hxz : x.toNat < z.toNat := by omega
            simp [hxz]
          · have hxz : x.toNat < z.toNat := by omega
            simp [hxz]
          · rw [if_neg (by omega : ¬ y.toNat < z.toNat), if_pos hyz] at h₂
            exact absurd h₂ Bool.false_ne_true
        · rcases Nat.lt_trichotomy y.toNat z.toNat with hyz | hyz | hyz
          · have hxz : x.toNat < z.toNat := by omega
            simp [hxz]
          · have h3 : ¬ x.toNat < z.toNat := by omega
            have h4 : ¬ z.toNat < x.toNat := by omega
            simp only [h3, h4, if_false]
            rw [if_neg (by omega : ¬ x.toNat < y.toNat),
              if_neg (by omega : ¬ y.toNat < x.toNat)] at h₁
            rw [if_neg (by omega : ¬ y.toNat < z.toNat),
              if_neg (by omega : ¬ z.toNat < y.toNat)] at h₂
            exact ih h₁ h₂
          · rw [if_neg (by omega : ¬ y.toNat < z.toNat), if_pos hyz] at h₂
            exact absurd h₂ Bool.false_ne_true
        · rw [if_neg (by omega : ¬ x.toNat < y.toNat), if_pos hxy] at h₁
          exact absurd h₁ Bool.false_ne_true

theorem charListLe_antisymm {a b : List Char}
    (h₁ : charListLe a b = true) (h₂ : charListLe b a = true) : a = b := by
  induction a generalizing b with
  | nil =>
    cases b with
    | nil => rfl
    | cons y ys => simp [charListLe] at h₂
  | cons x xs ih =>
    cases b with
    | nil => simp [charListLe] at h₁
    | cons y ys =>
      simp only [charListLe] at h₁ h₂
      rcases Nat.lt_trichotomy x.toNat y.toNat with hxy | hxy | hxy
      · simp [hxy] at h₂
        omega
      · have h3 : ¬ x.toNat < y.toNat := by omega
        have h4 : ¬ y.toNat < x.toNat := by omega
        simp [h3, h4] at h₁ h₂
        exact (char_toNat_inj hxy) ▸ congrArg (x :: ·) (ih h₁ h₂) ▸ rfl
      · simp [hxy] at h₁
        omega

theorem strLeB_total (a b : String) : strLeB a b = true ∨ strLeB b a = true :=
  charListLe_total a.data b.data

theorem strLeB_trans {a b c : String} (h₁ : strLeB a b = true)
    (h₂ : strLeB b c = true) : strLeB a c = true :=
  charListLe_trans h₁ h₂

theorem strLeB_antisymm {a b : String} (h₁ : strLeB a b = true)
    (h₂ : strLeB b a = true) : a = b := by
  have hd : a.data = b.data := charListLe_antisymm h₁ h₂
  cases a
  cases b
  simp_all

def lookupA (k : String) : List (String × ℕ) → Option ℕ
  | [] => none
  | (k₀, v) :: t => if k = k₀ then some v else lookupA k t

def bump : List (String × ℕ) → String → ℕ → List (String × ℕ)
  | [], k, v => [(k, v)]
  | (k₀, v₀) :: t, k, v =>
    if k = k₀ then (k₀, v₀ + v) :: t else (k₀, v₀) :: bump t k v

def keysOf (l : List (String × ℕ)) : List String := l.map Prod.fst

def keysNodup (l : List (String × ℕ)) : Prop := (keysOf l).Nodup

theorem mem_keysOf_bump {l : List (String × ℕ)} {k x : String} {v : ℕ} :
    x ∈ keysOf (bump l k v) ↔ x ∈ keysOf l ∨ x = k := by
  induction l with
  | nil => simp [bump, keysOf]
  | cons p t ih =>
    rcases p with ⟨k₀, v₀⟩
    by_cases h : k = k₀
    · subst h
      simp [bump, keysOf]
      tauto
    · simp only [bump, h, if_false]
      simp [keysOf] at ih ⊢
      tauto

theorem keysNodup_bump {l : List (String × ℕ)} {k : String} {v : ℕ}
    (h : keysNodup l) : keysNodup (bump l k v) := by
  induction l with
  | nil => simp [bump, keysNodup, keysOf]
  | cons p t ih =>
    rcases p with ⟨k₀, v₀⟩
    simp only [keysNodup, keysOf, List.map_cons, List.nodup_cons] at h
    by_cases hk : k = k₀
    · subst hk
      simpa [bump, keysNodup, keysOf] using h
    · simp only [bump, hk, if_false]
      simp only [keysNodup, keysOf, List.map_cons, List.nodup_cons]
      constructor
      · intro hc
        have := mem_keysOf_bump.mp (by simpa [keysOf] using hc)
        rcases this with h2 | h2
        · exact h.1 (by simpa [keysOf] using h2)
        · exact hk (h2.symm)
      · exact (by simpa [keysNodup, keysOf] using ih h.2)

theorem lookupA_mem_of_some {k : String} {l : List (String × ℕ)} {v : ℕ}
    (h : lookupA k l = some v) : k ∈ keysOf l := by
  induction l with
  | nil => simp [lookupA] at h
  | cons p t ih =>
    rcases p with ⟨k₀, v₀⟩
    by_cases hk : k = k₀
    · simp [keysOf, hk]
    · simp only [lookupA, hk, if_false] at h
      simp [keysOf] at ih ⊢
      tauto

theorem lookupA_eq_none_of_not_mem {k : String} {l : List (String × ℕ)}
    (h : k ∉ keysOf l) : lookupA k l = none := by
  induction l with
  | nil => rfl
  | cons p t ih =>
    rcases p with ⟨k₀, v₀⟩
    simp only [keysOf, List.map_cons, List.mem_cons] at h
    push_neg at h
    simp only [lookupA, h.1, if_false]
    exact ih (by simpa [keysOf] using h.2)

def keyLe (p q : String × ℕ) : Bool := strLeB p.1 q.1

def sortAssoc (l : List (String × ℕ)) : List (String × ℕ) := sortD keyLe l

theorem keysNodup_sortAssoc {l : List (String × ℕ)} (h : keysNodup l) :
    keysNodup (sortAssoc l) :=
  (((sortD_perm keyLe l).map Prod.fst).nodup_iff).mpr h

theorem lookupA_perm {l₁ l₂ : List (String × ℕ)} (h : l₁.Perm l₂)
    (hnd : keysNodup l₁) (k : String) : lookupA k l₁ = lookupA k l₂ := by
  induction h with
  | nil => rfl
  | cons p h ih =>
    rcases p with ⟨k₀, v₀⟩
    simp only [keysNodup, keysOf, List.map_cons, List.nodup_cons] at hnd
    by_cases hk : k = k₀
    · simp [lookupA, hk]
    · simp only [lookupA, hk, if_false]
      exact ih hnd.2
  | swap p q h =>
    rcases p with ⟨k₁, v₁⟩
    rcases q with ⟨k₂, v₂⟩
    simp only [keysNodup, keysOf, List.map_cons, List.nodup_cons, List.mem_cons] at hnd
    have hne : k₂ ≠ k₁ := by
      intro hc
      exact hnd.1 (Or.inl hc)
    by_cases h1 : k = k₁
    · subst h1
      simp [lookupA, hne.symm]
    · by_cases h2 : k = k₂
      · subst h2
        simp [lookupA, h1]
      · simp [lookupA, h1, h2]
  | trans h₁ h₂ ih₁ ih₂ =>
    have hnd2 : keysNodup _ := ((h₁.map Prod.fst).nodup_iff).mp hnd
    exact (ih₁ hnd).trans (ih₂ hnd2)

theorem sorted_assoc_ext {l₁ l₂ : List (String × ℕ)}
    (hs₁ : l₁.Pairwise (fun p q => strLeB p.1 q.1 = true)) (hnd₁ : keysNodup l₁)
    (hs₂ : l₂.Pairwise (fun p q => strLeB p.1 q.1 = true)) (hnd₂ : keysNodup l₂)
    (hl : ∀ k, lookupA k l₁ = lookupA k l₂) : l₁ = l₂ := by
  induction l₁ generalizing l₂ with
  | nil =>
    cases l₂ with
    | nil => rfl
    | cons p t =>
      rcases p with ⟨k₂, v₂⟩
      have := hl k₂
      simp [lookupA] at this
  | cons p t₁ ih =>
    rcases p with ⟨k₁, v₁⟩
    cases l₂ with
    | nil =>
      have := hl k₁
      simp [lookupA] at this
    | cons q t₂ =>
      rcases q with ⟨k₂, v₂⟩
      rcases List.pairwise_cons.mp hs₁ with ⟨hhd₁, htl₁⟩
      rcases List.pairwise_cons.mp hs₂ with ⟨hhd₂, htl₂⟩
      simp only [keysNodup, keysOf, List.map_cons, List.nodup_cons] at hnd₁ hnd₂
      have hk : k₁ = k₂ := by
        by_contra hne
        have e₁ := hl k₁
        simp only [lookupA, if_pos rfl, hne, if_false] at e₁
        have m₁ : k₁ ∈ keysOf t₂ := lookupA_mem_of_some e₁.symm
        have e₂ := hl k₂
        have hne2 : k₂ ≠ k₁ := fun hc => hne hc.symm
        simp only [lookupA, if_pos rfl, hne2, if_false] at e₂
        have m₂ : k₂ ∈ keysOf t₁ := lookupA_mem_of_some e₂
        rcases List.mem_map.mp m₁ with ⟨pr₁, hpr₁, hk₁⟩
        rcases List.mem_map.mp m₂ with ⟨pr₂, hpr₂, hk₂⟩
        have hle₁ : strLeB k₂ k₁ = true := hk₁ ▸ hhd₂ pr₁ hpr₁
        have hle₂ : strLeB k₁ k₂ = true := hk₂ ▸ hhd₁ pr₂ hpr₂
        exact hne (strLeB_antisymm hle₂ hle₁)
      subst hk
      have hv : v₁ = v₂ := by
        have := hl k₁
        simpa [lookupA] using this
      subst hv
      have htls : ∀ k, lookupA k t₁ = lookupA k t₂ := by
        intro k
        by_cases hk : k = k₁
        · subst hk
          rw [lookupA_eq_none_of_not_mem hnd₁.1, lookupA_eq_none_of_not_mem hnd₂.1]
        · have := hl k
          simpa [lookupA, hk] using this
      exact congrArg _ (ih htl₁ hnd₁.2 htl₂ hnd₂.2 htls)

/-
Part 3: Python string helpers used by the scanner (pathlib suffix,
str.lower, substring test, path rendering), json.dumps with
sort_keys=True, UTF-8 encoding, and MD5.
-/

def lowerStr (s : String) : String := ⟨s.data.map Char.toLower⟩

def takesPre : List Char → List Char → Bool
  | [], _ => true
  | _ :: _, [] => false
  | a :: as, b :: bs => a == b && takesPre as bs

def subList (n : List Char) (h : List Char) : Bool :=
  match h with
  | [] => n.isEmpty
  | _ :: t => takesPre n h || subList n t

/-- Model of the Python substring test `needle in hay`. -/
def pyIn (needle hay : String) : Bool := subList needle.data hay.data

def rfindDotAux : List Char → Option ℕ
  | [] => none
  | c :: t =>
    match rfindDotAux t with
    | some i => some (i + 1)
    | none => if c == '.' then some 0 else none

/-- Model of pathlib suffix: the extension from the last dot of the final
component, empty for hidden files and names ending in a dot. -/
def pySuffix (name : String) : String :=
  match rfindDotAux name.data with
  | none => ""
  | some i =>
    if 0 < i ∧ i < name.data.length - 1 then ⟨name.data.drop i⟩ else ""

def joinSep (sep : String) : List String → String
  | [] => ""
  | [x] => x
  | x :: y :: t => x ++ sep ++ joinSep sep (y :: t)

/-- Model of str(rel_path) for a relative pathlib Path given as its parts;
the empty parts list is the current directory, printed as a dot. -/
def relStr (parts : List String) : String :=
  if parts.isEmpty then "." else joinSep "/" parts

/-- Model of str(rel_path / file). -/
def relFile (parts : List String) (name : String) : String :=
  if parts.isEmpty then name else joinSep "/" parts ++ "/" ++ name

def hexDigit (n : ℕ) : Char :=
  if n < 10 then Char.ofNat (48 + n) else Char.ofNat (87 + n)

def hex4 (n : ℕ) : List Char :=
  [hexDigit (n / 4096 % 16), hexDigit (n / 256 % 16),
   hexDigit (n / 16 % 16), hexDigit (n % 16)]

/-- Escapes one character the way json.dumps (ensure_ascii=True) does. -/
def jsonEscapeChar (c : Char) : List Char :=
  if c == '\\' then ['\\', '\\']
  else if c == '"' then ['\\', '"']
  else
    let n := c.toNat
    if 32 ≤ n ∧ n ≤ 126 then [c]
    else if n = 8 then ['\\', 'b']
    else if n = 9 then ['\\', 't']
    else if n = 10 then ['\\', 'n']
    else if n = 12 then ['\\', 'f']
    else if n = 13 then ['\\', 'r']
    else if n < 65536 then '\\' :: 'u' :: hex4 n
    else
      ('\\' :: 'u' :: hex4 (55296 + (n - 65536) / 1024)) ++
      ('\\' :: 'u' :: hex4 (56320 + (n - 65536) % 1024))

def jsonStringLit (s : String) : String :=
  ⟨'"' :: (s.data.map jsonEscapeChar).join ++ ['"']⟩

/-- Serialises the types dict the way json.dumps(.., sort_keys=True) does:
keys sorted lexicographically, ", " and ": " separators. -/
def typesJson (types : List (String × ℕ)) : String :=
  "\x7b" ++
    joinSep ", "
      ((sortAssoc types).map (fun kv => jsonStringLit kv.1 ++ ": " ++ toString kv.2)) ++
  "\x7d"

/-- Model of the structure_str of scan_directory (lines 316-320):
json.dumps of the files/dirs/types dict with sort_keys=True; the three
top-level keys appear in their sorted order dirs, files, types. -/
def structureStr (total_files total_dirs : ℕ) (types : List (String × ℕ)) : String :=
  "\x7b\"dirs\": " ++ toString total_dirs ++
    ", \"files\": " ++ toString total_files ++
    ", \"types\": " ++ typesJson types ++ "\x7d"

def utf8Char (c : Char) : List ℕ :=
  let n := c.toNat
  if n < 128 then [n]
  else if n < 2048 then [192 + n / 64, 128 + n % 64]
  else if n < 65536 then [224 + n / 4096, 128 + n / 64 % 64, 128 + n % 64]
  else [240 + n / 262144, 128 + n / 4096 % 64, 128 + n / 64 % 64, 128 + n % 64]

def utf8Bytes (s : String) : List ℕ := (s.data.map utf8Char).join

def md5K : List ℕ :=
  [0xd76aa478, 0xe8c7b756, 0x242070db, 0xc1bdceee,
   0xf57c0faf, 0x4787c62a, 0xa8304613, 0xfd469501,
   0x698098d8, 0x8b44f7af, 0xffff5bb1, 0x895cd7be,
   0x6b901122, 0xfd987193, 0xa679438e, 0x49b40821,
   0xf61e2562, 0xc040b340, 0x265e5a51, 0xe9b6c7aa,
   0xd62f105d, 0x02441453, 0xd8a1e681, 0xe7d3fbc8,
   0x21e1cde6, 0xc33707d6, 0xf4d50d87, 0x455a14ed,
   0xa9e3e905, 0xfcefa3f8, 0x676f02d9, 0x8d2a4c8a,
   0xfffa3942, 0x8771f681, 0x6d9d6122, 0xfde5380c,
   0xa4beea44, 0x4bdecfa9, 0xf6bb4b60, 0xbebfbc70,
   0x289b7ec6, 0xeaa127fa, 0xd4ef3085, 0x04881d05,
   0xd9d4d039, 0xe6db99e5, 0x1fa27cf8, 0xc4ac5665,
   0xf4292244, 0x432aff97, 0xab9423a7, 0xfc93a039,
   0x655b59c3, 0x8f0ccc92, 0xffeff47d, 0x85845dd1,
   0x6fa87e4f, 0xfe2ce6e0, 0xa3014314, 0x4e0811a1,
   0xf7537e82, 0xbd3af235, 0x2ad7d2bb, 0xeb86d391]

def md5S : List ℕ :=
  [7, 12, 17, 22, 7, 12, 17, 22, 7, 12, 17, 22, 7, 12, 17, 22,
   5, 9, 14, 20, 5, 9, 14, 20, 5, 9, 14, 20, 5, 9, 14, 20,
   4, 11, 16, 23, 4, 11, 16, 23, 4, 11, 16, 23, 4, 11, 16, 23,
   6, 10, 15, 21, 6, 10, 15, 21, 6, 10, 15, 21, 6, 10, 15, 21]

def add32 (a b : ℕ) : ℕ := (a + b) % 4294967296

def not32 (a : ℕ) : ℕ := 4294967295 - a

def rotl32 (a s : ℕ) : ℕ := ((a <<< s) % 4294967296) ||| (a >>> (32 - s))

structure MD5State where
  a : ℕ
  b : ℕ
  c : ℕ
  d : ℕ

def md5Round (M : ℕ → ℕ) (st : MD5State) (i : ℕ) : MD5State :=
  let f :=
    if i < 16 then (st.b &&& st.c) ||| (not32 st.b &&& st.d)
    else if i < 32 then (st.d &&& st.b) ||| (not32 st.d &&& st.c)
    else if i < 48 then st.b ^^^ st.c ^^^ st.d
    else st.c ^^^ (st.b ||| not32 st.d)
  let g :=
    if i < 16 then i
    else if i < 32 then (5 * i + 1) % 16
    else if i < 48 then (3 * i + 5) % 16
    else (7 * i) % 16
  let t := add32 (add32 (add32 f st.a) (md5K.getD i 0)) (M g)
  ⟨st.d, add32 st.b (rotl32 t (md5S.getD i 0)), st.b, st.c⟩

def le8 (n : ℕ) : List ℕ := (List.range 8).map (fun i => n / 256 ^ i % 256)

def le4 (n : ℕ) : List ℕ := (List.range 4).map (fun i => n / 256 ^ i % 256)

def md5Pad (msg : List ℕ) : List ℕ :=
  let z := (119 - msg.length % 64) % 64
  msg ++ [128] ++ List.replicate z 0 ++ le8 ((8 * msg.length) % 18446744073709551616)

def wordAt (bs : List ℕ) (j : ℕ) : ℕ :=
  bs.getD (4 * j) 0 + 256 * bs.getD (4 * j + 1) 0 +
    65536 * bs.getD (4 * j + 2) 0 + 16777216 * bs.getD (4 * j + 3) 0

def md5Digest (msg : List ℕ) : List ℕ :=
  let padded := md5Pad msg
  let nb := padded.length / 64
  let final := (List.range nb).foldl
    (fun h bi =>
      let block := (padded.drop (64 * bi)).take 64
      let st := (List.range 64).foldl (md5Round (fun j => wordAt block j)) h
      MD5State.mk (add32 h.a st.a) (add32 h.b st.b) (add32 h.c st.c) (add32 h.d st.d))
    (MD5State.mk 0x67452301 0xefcdab89 0x98badcfe 0x10325476)
  le4 final.a ++ le4 final.b ++ le4 final.c ++ le4 final.d

/-- Model of hashlib.md5(text.encode()).hexdigest(). -/
def md5Hex (s : String) : String :=
  ⟨((md5Digest (utf8Bytes s)).map (fun b => [hexDigit (b / 16), hexDigit (b % 16)])).join⟩

/-
Part 4: DevelopmentStandards, the filesystem walk, DirectoryAnalyzer
(scan_directory, lines 257-333) and the messiness scorer
(AgenticMonitor._calculate_messiness_score, lines 507-521).

A walk is given as the sequence of directory entries produced by
os.walk after pruning: for every visited directory its relative path
parts, the number of surviving (un-pruned) subdirectories, and its
direct files in listing order.  A file has a name and an optional size
in bytes (`none` models a stat() call raising OSError).
-/

structure StandardsPolicy where
  max_depth : ℕ
  max_files_per_dir : ℕ
  forbidden_patterns : List String
  no_spaces : Bool
  max_file_size_mb : ℚ
deriving DecidableEq

/-- Model of DevelopmentStandards.STANDARDS (the fields read by the
scanner and scorer). -/
def defaultStandards : StandardsPolicy :=
  ⟨5, 20,
   ["Untitled", "New Folder", "Copy of", "- Copy",
    "temp", "tmp", "backup", "old", "~$"],
   true, 100⟩

structure FileEntry where
  name : String
  size : Option ℕ
deriving DecidableEq

structure DirEntry where
  relParts : List String
  numSubdirs : ℕ
  files : List FileEntry
deriving DecidableEq

structure LargeFileEntry where
  path : String
  size_mb : ℚ
deriving DecidableEq

structure DirectorySnapshot where
  timestamp : String
  path : String
  total_files : ℕ
  total_dirs : ℕ
  file_types : List (String × ℕ)
  depth_distribution : List (ℕ × ℕ)
  naming_violations : List String
  structure_hash : String
  largest_files : List LargeFileEntry
deriving DecidableEq

/-- Model of Python round(x, 2): round half to even at two decimals. -/
def round2 (q : ℚ) : ℚ :=
  let x := q * 100
  let n : ℤ := ⌊x⌋
  let r : ℤ :=
    if x - n < 1 / 2 then n
    else if 1 / 2 < x - n then n + 1
    else if n % 2 = 0 then n else n + 1
  (r : ℚ) / 100

def bumpNat : List (ℕ × ℕ) → ℕ → ℕ → List (ℕ × ℕ)
  | [], k, v => [(k, v)]
  | (k₀, v₀) :: t, k, v =>
    if k = k₀ then (k₀, v₀ + v) :: t else (k₀, v₀) :: bumpNat t k v

/-- Model of `ext = file_path.suffix.lower() or 'no_extension'`. -/
def extOf (name : String) : String :=
  let s := lowerStr (pySuffix name)
  if s = "" then "no_extension" else s

/-- Violations the scanner emits for one file, in emission order:
one per matching forbidden pattern, then the space check. -/
def fileViolations (pol : StandardsPolicy) (parts : List String) (f : FileEntry) :
    List String :=
  (pol.forbidden_patterns.filterMap (fun pat =>
    if pyIn (lowerStr pat) (lowerStr f.name) then
      some ("Naming violation \x27" ++ pat ++ "\x27 in " ++ relFile parts f.name)
    else none)) ++
  (if pol.no_spaces && f.name.data.contains ' ' then
    ["Space in filename: " ++ relFile parts f.name]
  else [])

/-- Oversized-file record for one file (empty if the stat failed or the
size is within the threshold), as appended by lines 302-311. -/
def fileLarge (pol : StandardsPolicy) (parts : List String) (f : FileEntry) :
    List LargeFileEntry :=
  match f.size with
  | none => []
  | some bytes =>
    let size_mb : ℚ := (bytes : ℚ) / (1024 * 1024)
    if size_mb > pol.max_file_size_mb then
      [⟨relFile parts f.name, round2 size_mb⟩]
    else []

structure ScanAcc where
  total_files : ℕ
  total_dirs : ℕ
  file_types : List (String × ℕ)
  depth_distribution : List (ℕ × ℕ)
  naming_violations : List String
  largest_files : List LargeFileEntry

def fileStep (pol : StandardsPolicy) (parts : List String) (acc : ScanAcc)
    (f : FileEntry) : ScanAcc :=
  { total_files := acc.total_files + 1
    total_dirs := acc.total_dirs
    file_types := bump acc.file_types (extOf f.name) 1
    depth_distribution := acc.depth_distribution
    naming_violations := acc.naming_violations ++ fileViolations pol parts f
    largest_files := acc.largest_files ++ fileLarge pol parts f }

/-- Violation for a directory holding too many direct files. -/
def tooManyViolation (pol : StandardsPolicy) (d : DirEntry) : List String :=
  if d.files.length > pol.max_files_per_dir then
    ["Too many files (" ++ toString d.files.length ++ ") in " ++ relStr d.relParts]
  else []

def dirStep (pol : StandardsPolicy) (acc : ScanAcc) (d : DirEntry) : ScanAcc :=
  let acc1 : ScanAcc :=
    { acc with
      total_dirs := acc.total_dirs + d.numSubdirs
      depth_distribution :=
        bumpNat acc.depth_distribution d.relParts.length d.numSubdirs
      naming_violations := acc.naming_violations ++ tooManyViolation pol d }
  d.files.foldl (fileStep pol d.relParts) acc1

def scanFold (pol : StandardsPolicy) (walk : List DirEntry) : ScanAcc :=
  walk.foldl (dirStep pol) ⟨0, 0, [], [], [], []⟩

/-- Complete violation list discovered during the walk, before the
final cap naming_violations[:20]. -/
def allViolations (pol : StandardsPolicy) (walk : List DirEntry) : List String :=
  (scanFold pol walk).naming_violations

def largeGe (x y : LargeFileEntry) : Bool := decide (y.size_mb ≤ x.size_mb)

/-- Model of DirectoryAnalyzer.scan_directory (lines 257-333). -/
def scan_directory (pol : StandardsPolicy) (timestamp watch_path : String)
    (walk : List DirEntry) : DirectorySnapshot :=
  let acc := scanFold pol walk
  let largest := (sortD largeGe acc.largest_files).take 10
  let structure_hash := md5Hex (structureStr acc.total_files acc.total_dirs acc.file_types)
  { timestamp := timestamp
    path := watch_path
    total_files := acc.total_files
    total_dirs := acc.total_dirs
    file_types := acc.file_types
    depth_distribution := acc.depth_distribution
    naming_violations := acc.naming_violations.take 20
    structure_hash := structure_hash
    largest_files := largest }

def maxKeyNat (l : List (ℕ × ℕ)) : ℕ := l.foldl (fun m p => max m p.1) 0

/-- Model of AgenticMonitor._calculate_messiness_score (lines 507-521),
translated statement by statement. -/
def calculate_messiness_score (pol : StandardsPolicy) (s : DirectorySnapshot) : ℚ :=
  let score₁ : ℚ := 0 + min ((s.naming_violations.length : ℚ) * 0.5) 4
  let max_depth := maxKeyNat s.depth_distribution
  let score₂ : ℚ :=
    if max_depth > pol.max_depth then
      score₁ + ((max_depth - pol.max_depth : ℕ) : ℚ) * 0.5
    else score₁
  let score₃ : ℚ := score₂ + min ((s.largest_files.length : ℚ) * 0.3) 2
  let score₄ : ℚ := if s.file_types.length > 15 then score₃ + 1 else score₃
  min score₄ 10

/-- Formula of the C1 claim, written exactly as the spec words it. -/
def specScoreFormula (pol : StandardsPolicy) (s : DirectorySnapshot) : ℚ :=
  min
    (min ((s.naming_violations.length : ℚ) * 0.5) 4 +
      max 0 ((maxKeyNat s.depth_distribution : ℚ) - (pol.max_depth : ℚ)) * 0.5 +
      min ((s.largest_files.length : ℚ) * 0.3) 2 +
      (if s.file_types.length > 15 then (1 : ℚ) else 0))
    10

/-- Score as a function of the four counts it actually depends on:
violation count, observed maximum depth, oversized-file count and
distinct-type count. -/
def scoreOfCounts (v d o t pmax : ℕ) : ℚ :=
  min
    ((0 + min ((v : ℚ) * 0.5) 4 +
      (if d > pmax then ((d - pmax : ℕ) : ℚ) * 0.5 else 0)) +
      min ((o : ℚ) * 0.3) 2 +
      (if t > 15 then (1 : ℚ) else 0))
    10

/-
Part 5: LocalDatabase (SQLite, lines 54-206), LocalVectorStore
(lines 336-390), LocalLLM (lines 393-429), AgenticMonitor
(lines 432-573) and TrendAnalyzer (trend_graphs_module.py lines 54-100).

SQLite specifics that matter here: AUTOINCREMENT hands out increasing
row ids starting at 1; foreign keys declared in the schema are enforced
only when `PRAGMA foreign_keys = ON` has been executed on the
connection, and Python sqlite3 leaves the pragma at its default OFF --
directory_monitor.py never issues the pragma, which the model records
in the `foreign_keys_on` flag of the connection state.
-/

structure SnapshotRow where
  id : ℕ
  timestamp : String
  path : String
  total_files : ℕ
  total_dirs : ℕ
  messiness_score : ℚ
  structure_hash : String
  snapshot_data : DirectorySnapshot
deriving DecidableEq

structure AnalysisRow where
  id : ℕ
  snapshot_id : ℕ
  timestamp : String
  llm_analysis : String
  alert_triggered : Bool
deriving DecidableEq

structure EmbeddingRow where
  id : ℕ
  snapshot_id : ℕ
  embedding : List ℚ
deriving DecidableEq

structure LocalDatabase where
  snapshots : List SnapshotRow
  analyses : List AnalysisRow
  embeddings : List EmbeddingRow
  next_snapshot_id : ℕ
  next_analysis_id : ℕ
  next_embedding_id : ℕ
  foreign_keys_on : Bool
deriving DecidableEq

/-- State of a fresh connection after _init_schema: empty tables and the
sqlite3 default of foreign-key enforcement switched off. -/
def initDatabase : LocalDatabase := ⟨[], [], [], 1, 1, 1, false⟩

/-- Model of LocalDatabase.save_snapshot (lines 112-129); returns the
updated database and cursor.lastrowid. -/
def save_snapshot (db : LocalDatabase) (s : DirectorySnapshot)
    (messiness_score : ℚ) : LocalDatabase × ℕ :=
  let id := db.next_snapshot_id
  ({ db with
      snapshots := db.snapshots ++
        [⟨id, s.timestamp, s.path, s.total_files, s.total_dirs,
          messiness_score, s.structure_hash, s⟩]
      next_snapshot_id := id + 1 },
   id)

def snapshotExists (db : LocalDatabase) (sid : ℕ) : Bool :=
  db.snapshots.any (fun r => r.id == sid)

/-- Model of LocalDatabase.save_analysis (lines 131-138).  The INSERT
violates the declared foreign key when `snapshot_id` does not exist, but
SQLite raises only if enforcement is on; otherwise the row is stored. -/
def save_analysis (db : LocalDatabase) (snapshot_id : ℕ) (now : String)
    (analysis : String) (alert : Bool) : Except String LocalDatabase :=
  if db.foreign_keys_on && !(snapshotExists db snapshot_id) then
    Except.error "FOREIGN KEY constraint failed"
  else
    Except.ok
      { db with
        analyses := db.analyses ++
          [⟨db.next_analysis_id, snapshot_id, now, analysis, alert⟩]
        next_analysis_id := db.next_analysis_id + 1 }

/-- Model of LocalDatabase.save_embedding (lines 140-148). -/
def save_embedding (db : LocalDatabase) (snapshot_id : ℕ)
    (embedding : List ℚ) : LocalDatabase :=
  { db with
    embeddings := db.embeddings ++
      [⟨db.next_embedding_id, snapshot_id, embedding⟩]
    next_embedding_id := db.next_embedding_id + 1 }

structure CacheEntry where
  snapshot_id : ℕ
  embedding : List ℚ
  snapshot : DirectorySnapshot
deriving DecidableEq

/-- Model of LocalDatabase.get_all_embeddings (lines 150-165): inner
join of embeddings with snapshots, in embeddings insertion order
(SQLite scans the embeddings table in rowid order). -/
def get_all_embeddings (db : LocalDatabase) : List CacheEntry :=
  db.embeddings.filterMap (fun e =>
    (db.snapshots.find? (fun s => s.id == e.snapshot_id)).map
      (fun s => ⟨e.snapshot_id, e.embedding, s.snapshot_data⟩))

structure HistoryRow where
  timestamp : String
  messiness_score : ℚ
  analysis : Option String
  alert : Option Bool
deriving DecidableEq

/-- Rows of the LEFT JOIN of snapshots with analyses in get_history
(lines 167-183), before the ORDER BY. -/
def historyJoin (db : LocalDatabase) : List HistoryRow :=
  (db.snapshots.map (fun s =>
    match db.analyses.filter (fun a => a.snapshot_id == s.id) with
    | [] => [⟨s.timestamp, s.messiness_score, none, none⟩]
    | l => l.map (fun a =>
        ⟨s.timestamp, s.messiness_score, some a.llm_analysis, some a.alert_triggered⟩))).join

def histGe (x y : HistoryRow) : Bool := strLeB y.timestamp x.timestamp

/-- Model of LocalDatabase.get_history: join, ORDER BY timestamp DESC,
LIMIT. -/
def get_history (db : LocalDatabase) (limit : ℕ) : List HistoryRow :=
  (sortD histGe (historyJoin db)).take limit

def maxQ : List ℚ → Option ℚ
  | [] => none
  | h :: t => some (t.foldl max h)

def minQ : List ℚ → Option ℚ
  | [] => none
  | h :: t => some (t.foldl min h)

def avgQ : List ℚ → Option ℚ
  | [] => none
  | l => some (l.sum / (l.length : ℚ))

/-- Model of the Python idiom `round(x, 2) if x else 0` applied to a
nullable SQL aggregate: both NULL and 0.0 are falsy. -/
def pyRoundOrZero (o : Option ℚ) : ℚ :=
  match o with
  | none => 0
  | some v => if v = 0 then 0 else round2 v

structure StatsRec where
  total_scans : ℕ
  avg_messiness : ℚ
  max_messiness : ℚ
  min_messiness : ℚ
deriving DecidableEq

/-- Model of LocalDatabase.get_stats (lines 185-202). -/
def get_stats (db : LocalDatabase) : StatsRec :=
  let scores := db.snapshots.map (fun r => r.messiness_score)
  ⟨db.snapshots.length,
   pyRoundOrZero (avgQ scores),
   pyRoundOrZero (maxQ scores),
   pyRoundOrZero (minQ scores)⟩

def dotQ : List ℚ → List ℚ → ℚ
  | a :: as, b :: bs => a * b + dotQ as bs
  | _, _ => 0

def sumSq (v : List ℚ) : ℚ := dotQ v v

/-- Cosine similarity dot(a,b) / (norm(a) * norm(b)) of the source
(lines 380-382), over the reals. -/
noncomputable def cosineSim (a b : List ℚ) : ℝ :=
  ((dotQ a b : ℚ) : ℝ) / (Real.sqrt ((sumSq a : ℚ) : ℝ) * Real.sqrt ((sumSq b : ℚ) : ℝ))

/-- Decidable comparison equivalent (for nonzero vectors, same query) to
cosineSim x.embedding q being at least cosineSim y.embedding q; obtained
from the real comparison by clearing the positive denominators and
squaring by sign cases.  The equivalence is proved in simGe_iff_cosineSim. -/
def simGe (q : List ℚ) (x y : CacheEntry) : Bool :=
  let d₁ := dotQ x.embedding q
  let s₁ := sumSq x.embedding
  let d₂ := dotQ y.embedding q
  let s₂ := sumSq y.embedding
  if 0 ≤ d₁ then
    (if 0 ≤ d₂ then decide (d₂ ^ 2 * s₁ ≤ d₁ ^ 2 * s₂) else true)
  else
    (if 0 ≤ d₂ then false else decide (d₁ ^ 2 * s₂ ≤ d₂ ^ 2 * s₁))

/-- Model of LocalVectorStore.search (lines 371-390): empty-cache guard,
stable descending sort by similarity, top_k slice.  The query is given
already encoded (the source encodes it after the empty-cache check). -/
def search (cache : List CacheEntry) (query_embedding : List ℚ)
    (top_k : ℕ) : List CacheEntry :=
  if cache.isEmpty then []
  else (sortD (simGe query_embedding) cache).take top_k

/-- Model of LocalVectorStore._snapshot_to_text (lines 359-369). -/
def snapshot_to_text (s : DirectorySnapshot) : String :=
  let violations := joinSep "\n" (s.naming_violations.take 5)
  "\n        Directory: " ++ s.path ++
  "\n        Files: " ++ toString s.total_files ++
  "\n        Directories: " ++ toString s.total_dirs ++
  "\n        File types: " ++ joinSep ", " (keysOf s.file_types) ++
  "\n        Max depth: " ++ toString (maxKeyNat s.depth_distribution) ++
  "\n        Violations: " ++ violations ++
  "\n        "

/-- Behaviour of the external narrative backend for one call: a normal
response, an exception raised inside the backend call, or no backend
installed / model not loaded. -/
inductive NarrativeService where
  | responds (f : String → String)
  | raises (f : String → String)
  | unavailable

/-- Model of LocalLLM.generate (lines 410-429): the try/except turns
every backend failure into a returned placeholder string, so the call
is total. -/
def generate (svc : NarrativeService) (prompt : String) : String :=
  match svc with
  | .responds f => f prompt
  | .raises f =>
      "Error with local LLM: " ++ f prompt ++
      "\nEnsure Ollama is running: ollama serve"
  | .unavailable => "Local LLM not available. Install ollama or llama-cpp-python"

/-- Model of the retrieval-context block of analyze_with_llm
(lines 456-463). -/
def contextOf (results : List CacheEntry) : String :=
  if results.isEmpty then ""
  else
    "Previous similar states (stored locally):\n" ++
    String.join (results.map (fun r =>
      "- " ++ r.snapshot.timestamp ++ ": " ++
      toString r.snapshot.naming_violations.length ++ " violations\n"))

/-- Model of AgenticMonitor._build_analysis_prompt (lines 475-505). -/
def build_analysis_prompt (s : DirectorySnapshot) (context : String) : String :=
  "You are a development standards expert. Analyze this directory structure:\n\n" ++
  context ++
  "\n\nCurrent State:\n- Path: " ++ s.path ++
  "\n- Total Files: " ++ toString s.total_files ++
  "\n- Total Directories: " ++ toString s.total_dirs ++
  "\n- Maximum Depth: " ++ toString (maxKeyNat s.depth_distribution) ++
  "\n- File Types: " ++ joinSep ", " ((keysOf s.file_types).take 10) ++
  "\n- Naming Violations: " ++ toString s.naming_violations.length ++
  "\n\nSpecific Issues:\n" ++ joinSep "\n" (s.naming_violations.take 10) ++
  "\n\nLarge Files:\n" ++
  joinSep "\n" ((s.largest_files.take 5).map (fun f =>
    "- " ++ f.path ++ ": " ++ toString f.size_mb.num ++ "/" ++
    toString f.size_mb.den ++ "MB")) ++
  "\n\nBased on development best practices:\n" ++
  "1. Is this directory structure messy? (Yes/No)\n" ++
  "2. What are the top 3 issues?\n" ++
  "3. What specific actions should be taken?\n" ++
  "4. Rate messiness 1-10 (10 = extremely messy)\n\nBe concise and actionable."

/-- Model of AgenticMonitor.analyze_with_llm (lines 453-473), reduced to
the two values the orchestrator reads from the returned dict: the
computed score and the narrative text.  `encodeOpt` is the local text
encoder when sentence-transformers is importable, `none` otherwise (in
which case self.vector_store is None and no retrieval happens). -/
def analyze_with_llm (svc : NarrativeService)
    (encodeOpt : Option (String → List ℚ)) (db : LocalDatabase)
    (pol : StandardsPolicy) (s : DirectorySnapshot) : ℚ × String :=
  let context :=
    match encodeOpt with
    | none => ""
    | some encode =>
        contextOf (search (get_all_embeddings db) (encode "messy directory violations") 2)
  let prompt := build_analysis_prompt s context
  (calculate_messiness_score pol s, generate svc prompt)

/-- Model of the Python format f"{x:.1f}" for a nonnegative rational:
round half to even at one decimal. -/
def fmt1 (q : ℚ) : String :=
  let x := q * 10
  let n : ℤ := ⌊x⌋
  let r : ℤ :=
    if x - n < 1 / 2 then n
    else if 1 / 2 < x - n then n + 1
    else if n % 2 = 0 then n else n + 1
  toString (r / 10) ++ "." ++ toString (r % 10)

structure AnalysisResult where
  timestamp : String
  messiness_score : ℚ
  llm_analysis : String
  snapshot : DirectorySnapshot
  alert : Bool
  message : String
deriving DecidableEq

/-- Model of AgenticMonitor.scan_and_alert (lines 523-548).  `ts` is the
scan-time clock reading (snapshot timestamp), `tsA` the slightly later
one used for the analyses row.  A raised sqlite error would propagate,
hence the Except result.  The leading emoji of the two status messages
is omitted. -/
def scan_and_alert (svc : NarrativeService)
    (encodeOpt : Option (String → List ℚ)) (pol : StandardsPolicy)
    (ts tsA watch_path : String) (walk : List DirEntry)
    (db : LocalDatabase) (alert_threshold : ℚ) :
    Except String (AnalysisResult × LocalDatabase) :=
  let snapshot := scan_directory pol ts watch_path walk
  let sn := analyze_with_llm svc encodeOpt db pol snapshot
  let saved := save_snapshot db snapshot sn.1
  match save_analysis saved.1 saved.2 tsA sn.2 (decide (sn.1 ≥ alert_threshold)) with
  | Except.error e => Except.error e
  | Except.ok db₂ =>
    let db₃ :=
      match encodeOpt with
      | none => db₂
      | some encode => save_embedding db₂ saved.2 (encode (snapshot_to_text snapshot))
    let result : AnalysisResult :=
      if sn.1 ≥ alert_threshold then
        ⟨ts, sn.1, sn.2, snapshot, true,
          "ALERT: Messiness score " ++ fmt1 sn.1 ++ "/10"⟩
      else
        ⟨ts, sn.1, sn.2, snapshot, false,
          "Clean (score: " ++ fmt1 sn.1 ++ "/10)"⟩
    Except.ok (result, db₃)

structure MonitorReport where
  generated : String
  statistics : StatsRec
  recent_history : List HistoryRow
deriving DecidableEq

/-- Model of AgenticMonitor.export_report (lines 558-569): the dict
serialised to the report file, with get_history called at limit 20.
Writing the JSON file and re-parsing it is modelled as the identity on
this record. -/
def export_report (db : LocalDatabase) (generated : String) : MonitorReport :=
  ⟨generated, get_stats db, get_history db 20⟩

/-- Timestamps for a synthetic run of K scans: strictly increasing in
lexicographic (= chronological) order. -/
def tsOf (i : ℕ) : String := "2025-01-01T00:00:" ++ toString (100 + i)

/-- Database reached after K scan_and_alert cycles against an empty
directory, starting from a fresh store, with no narrative backend and
no encoder.  The error branch is unreachable (save_analysis follows its
own save_snapshot). -/
def runScans : ℕ → LocalDatabase
  | 0 => initDatabase
  | n + 1 =>
    match scan_and_alert NarrativeService.unavailable none defaultStandards
        (tsOf n) (tsOf n) "." [] (runScans n) 5 with
    | Except.ok r => r.2
    | Except.error _ => runScans n

/-- Model of the SQL AVG over a window combined with the `or 0` default
of get_statistics_summary (lines 72-84): NULL (empty window) becomes 0. -/
def avgOr0 (l : List ℚ) : ℚ :=
  match l with
  | [] => 0
  | _ :: _ => l.sum / (l.length : ℚ)

/-- Model of the trend classification of
TrendAnalyzer.get_statistics_summary (line 86), applied to the scores of
the recent (last 7 days) and previous (days 8-14) windows. -/
def trendClassify (recent previous : List ℚ) : String :=
  let recent_avg := avgOr0 recent
  let previous_avg := avgOr0 previous
  if recent_avg < previous_avg then "improving"
  else if recent_avg > previous_avg then "worsening"
  else "stable"

/-
Part 6: theorems for the claims, with the helper lemmas they share.
-/

/-- C10: calling get_stats on a store containing zero snapshots returns
a result rather than raising, with total_scans 0 and average, maximum
and minimum messiness each reported as 0, not null. -/
theorem C10_get_stats_empty (db : LocalDatabase) (h : db.snapshots = []) :
    get_stats db = ⟨0, 0, 0, 0⟩ := by
  simp [get_stats, h, avgQ, maxQ, minQ, pyRoundOrZero]

/-- C10 witness: the freshly initialised store has zero snapshots and
aggregates to all-zero statistics. -/
theorem C10_get_stats_empty_witness :
    get_stats initDatabase = ⟨0, 0, 0, 0⟩ :=
  C10_get_stats_empty initDatabase rfl

/-- C2: evaluation of save_analysis at a nonexistent snapshot id on a
fresh store.  The snapshots table is empty, so id 1 does not exist, yet
the call succeeds and records the analysis row, because the schema
declares the foreign key but the connection never enables enforcement
(sqlite3 default PRAGMA foreign_keys = OFF).  This contradicts the
claimed ReferenceError failure. -/
theorem C2_save_analysis_not_enforced :
    snapshotExists initDatabase 1 = false ∧
    save_analysis initDatabase 1 "2025-01-01T00:00:00" "orphan narrative" false =
      Except.ok
        ⟨[], [⟨1, 1, "2025-01-01T00:00:00", "orphan narrative", false⟩],
         [], 1, 2, 1, false⟩ :=
  ⟨rfl, rfl⟩

/-- C4 (amended): the snapshot violation list is exactly the first 20
discovered violations - the cap keeps the earliest-discovered entries
and silently drops the later ones, and therefore never exceeds 20. -/
theorem C4_violations_cap (pol : StandardsPolicy) (ts path : String)
    (walk : List DirEntry) :
    (scan_directory pol ts path walk).naming_violations
      = (allViolations pol walk).take 20 ∧
    (scan_directory pol ts path walk).naming_violations.length ≤ 20 :=
  ⟨rfl, List.length_take_le 20 _⟩

def cexWalk : List DirEntry :=
  [⟨[], 0, (List.range 21).map (fun i => ⟨"a " ++ toString i, none⟩)⟩]

/-- C4 counterexample: a single directory with 21 space-containing
files yields 22 violations (one too-many-files violation plus 21 space
violations); the retained 20 are the take of the list - the
earliest-discovered ones - not the drop, refuting the claim that the
earlier violations are the ones dropped. -/
theorem C4_counterexample :
    (allViolations defaultStandards cexWalk).length = 22 ∧
    (scan_directory defaultStandards "t" "." cexWalk).naming_violations.length = 20 ∧
    (scan_directory defaultStandards "t" "." cexWalk).naming_violations ≠
      (allViolations defaultStandards cexWalk).drop
        ((allViolations defaultStandards cexWalk).length - 20) := by
  refine ⟨by decide, by decide, by decide⟩

theorem avgOr0_le_of_forall_le {l : List ℚ} {c : ℚ} (hl : l ≠ [])
    (h : ∀ x ∈ l, x ≤ c) : avgOr0 l ≤ c := by
  match l, hl with
  | x :: t, _ =>
    show (x :: t).sum / (((x :: t).length : ℕ) : ℚ) ≤ c
    have hpos : (0 : ℚ) < (((x :: t).length : ℕ) : ℚ) := by
      exact_mod_cast List.length_pos.mpr (List.cons_ne_nil x t)
    rw [div_le_iff₀ hpos]
    have := List.sum_le_card_nsmul (x :: t) c h
    rw [nsmul_eq_mul] at this
    linarith

theorem le_avgOr0_of_forall_le {l : List ℚ} {c : ℚ} (hl : l ≠ [])
    (h : ∀ x ∈ l, c ≤ x) : c ≤ avgOr0 l := by
  match l, hl with
  | x :: t, _ =>
    show c ≤ (x :: t).sum / (((x :: t).length : ℕ) : ℚ)
    have hpos : (0 : ℚ) < (((x :: t).length : ℕ) : ℚ) := by
      exact_mod_cast List.length_pos.mpr (List.cons_ne_nil x t)
    rw [le_div_iff₀ hpos]
    have := List.card_nsmul_le_sum (x :: t) c h
    rw [nsmul_eq_mul] at this
    linarith

/-- C3 counterexample: no positive epsilon can witness the claimed
classification rule - the code compares the two window means exactly,
so a window pair whose means differ by half of any candidate epsilon is
still classified improving. -/
theorem C3_counterexample :
    ¬ ∃ ε : ℚ, 0 < ε ∧ ∀ recent previous : List ℚ,
        trendClassify recent previous = "improving" →
        avgOr0 previous - avgOr0 recent > ε := by
  rintro ⟨ε, hε, h⟩
  have h2 : (0 : ℚ) < ε / 2 := by positivity
  have havg₁ : avgOr0 [0] = 0 := by simp [avgOr0]
  have havg₂ : avgOr0 [ε / 2] = ε / 2 := by simp [avgOr0]
  have himp : trendClassify [0] [ε / 2] = "improving" := by
    unfold trendClassify
    rw [havg₁, havg₂, if_pos h2]
  have := h [0] [ε / 2] himp
  rw [havg₁, havg₂] at this
  linarith

/-- C3 (amended): the trend comparison is exact (epsilon is zero): the
classification is improving precisely when the recent window mean is
strictly below the previous one, worsening precisely when strictly
above, stable exactly on equal means; consequently equal means give
stable, and windows in which every recent score is at least 2.0 below
every previous score classify as improving (symmetrically worsening). -/
theorem C3_trend_classification (recent previous : List ℚ) :
    (trendClassify recent previous = "improving" ↔ avgOr0 recent < avgOr0 previous) ∧
    (trendClassify recent previous = "worsening" ↔ avgOr0 previous < avgOr0 recent) ∧
    (trendClassify recent previous = "stable" ↔ avgOr0 recent = avgOr0 previous) ∧
    (recent ≠ [] → previous ≠ [] →
      (∀ x ∈ recent, ∀ y ∈ previous, x + 2 ≤ y) →
      trendClassify recent previous = "improving") ∧
    (recent ≠ [] → previous ≠ [] →
      (∀ x ∈ recent, ∀ y ∈ previous, y + 2 ≤ x) →
      trendClassify recent previous = "worsening") := by
  have hiw : ("improving" : String) ≠ "worsening" := by decide
  have his : ("improving" : String) ≠ "stable" := by decide
  have hws : ("worsening" : String) ≠ "stable" := by decide
  have hmain :
      (trendClassify recent previous = "improving" ↔ avgOr0 recent < avgOr0 previous) ∧
      (trendClassify recent previous = "worsening" ↔ avgOr0 previous < avgOr0 recent) ∧
      (trendClassify recent previous = "stable" ↔ avgOr0 recent = avgOr0 previous) := by
    unfold trendClassify
    rcases lt_trichotomy (avgOr0 recent) (avgOr0 previous) with h | h | h
    · rw [if_pos h]
      exact ⟨iff_of_true rfl h,
        iff_of_false (fun hc => hiw hc) (lt_asymm h),
        iff_of_false (fun hc => his hc) (ne_of_lt h)⟩
    · rw [if_neg (by rw [h]; exact lt_irrefl _), if_neg (by rw [h]; exact lt_irrefl _)]
      exact ⟨iff_of_false (fun hc => his hc.symm) (by rw [h]; exact lt_irrefl _),
        iff_of_false (fun hc => hws hc.symm) (by rw [h]; exact lt_irrefl _),
        iff_of_true rfl h⟩
    · rw [if_neg (lt_asymm h), if_pos h]
      exact ⟨iff_of_false (fun hc => hiw hc.symm) (lt_asymm h),
        iff_of_true rfl h,
        iff_of_false (fun hc => hws hc) (ne_of_gt h)⟩
  refine ⟨hmain.1, hmain.2.1, hmain.2.2, ?_, ?_⟩
  · intro hr hp hsep
    apply hmain.1.mpr
    have hup : ∀ x ∈ recent, x ≤ avgOr0 previous - 2 := by
      intro x hx
      have : x + 2 ≤ avgOr0 previous :=
        le_avgOr0_of_forall_le hp (fun y hy => hsep x hx y hy)
      linarith
    have h1 : avgOr0 recent ≤ avgOr0 previous - 2 := avgOr0_le_of_forall_le hr hup
    linarith
  · intro hr hp hsep
    apply hmain.2.1.mpr
    have hup : ∀ y ∈ previous, y ≤ avgOr0 recent - 2 := by
      intro y hy
      have : y + 2 ≤ avgOr0 recent :=
        le_avgOr0_of_forall_le hr (fun x hx => hsep x hx y hy)
      linarith
    have h1 : avgOr0 previous ≤ avgOr0 recent - 2 := avgOr0_le_of_forall_le hp hup
    linarith

theorem calculate_eq_scoreOfCounts (pol : StandardsPolicy) (s : DirectorySnapshot) :
    calculate_messiness_score pol s =
      scoreOfCounts s.naming_violations.length (maxKeyNat s.depth_distribution)
        s.largest_files.length s.file_types.length pol.max_depth := by
  simp only [calculate_messiness_score, scoreOfCounts]
  split_ifs with h1 h2 <;> (congr 1 <;> ring)

theorem calculate_eq_specFormula (pol : StandardsPolicy) (s : DirectorySnapshot) :
    calculate_messiness_score pol s = specScoreFormula pol s := by
  rw [calculate_eq_scoreOfCounts]
  simp only [scoreOfCounts, specScoreFormula]
  by_cases h : maxKeyNat s.depth_distribution > pol.max_depth
  · have hle : (pol.max_depth : ℚ) ≤ (maxKeyNat s.depth_distribution : ℚ) := by
      exact_mod_cast le_of_lt h
    have hcast : ((maxKeyNat s.depth_distribution - pol.max_depth : ℕ) : ℚ)
        = (maxKeyNat s.depth_distribution : ℚ) - (pol.max_depth : ℚ) :=
      Nat.cast_sub (le_of_lt h)
    rw [if_pos h, hcast, max_eq_right (by linarith)]
    congr 1
    ring
  · have hle : (maxKeyNat s.depth_distribution : ℚ) ≤ (pol.max_depth : ℚ) := by
      exact_mod_cast le_of_not_lt h
    rw [if_neg h, max_eq_left (by linarith)]
    congr 1
    ring

theorem scoreOfCounts_nonneg (v d o t p : ℕ) : 0 ≤ scoreOfCounts v d o t p := by
  unfold scoreOfCounts
  have h1 : (0:ℚ) ≤ min ((v:ℚ) * 0.5) 4 := le_min (by positivity) (by norm_num)
  have h2 : (0:ℚ) ≤ (if d > p then ((d - p : ℕ) : ℚ) * 0.5 else 0) := by
    split_ifs
    · positivity
    · exact le_refl 0
  have h3 : (0:ℚ) ≤ min ((o:ℚ) * 0.3) 2 := le_min (by positivity) (by norm_num)
  have h4 : (0:ℚ) ≤ (if t > 15 then (1:ℚ) else 0) := by split_ifs <;> norm_num
  exact le_min (by linarith) (by norm_num)

theorem scoreOfCounts_le_ten (v d o t p : ℕ) : scoreOfCounts v d o t p ≤ 10 := by
  unfold scoreOfCounts
  exact min_le_right _ _

theorem scoreOfCounts_mono_violations {v v₂ : ℕ} (d o t p : ℕ) (h : v ≤ v₂) :
    scoreOfCounts v d o t p ≤ scoreOfCounts v₂ d o t p := by
  unfold scoreOfCounts
  apply min_le_min _ le_rfl
  have hc : (v:ℚ) ≤ (v₂:ℚ) := by exact_mod_cast h
  have hmin : min ((v:ℚ) * 0.5) 4 ≤ min ((v₂:ℚ) * 0.5) 4 :=
    min_le_min (by linarith) le_rfl
  linarith

theorem scoreOfCounts_mono_depth {d d₂ : ℕ} (v o t p : ℕ) (h : d ≤ d₂) :
    scoreOfCounts v d o t p ≤ scoreOfCounts v d₂ o t p := by
  unfold scoreOfCounts
  apply min_le_min _ le_rfl
  have hterm : (if d > p then ((d - p : ℕ) : ℚ) * 0.5 else 0)
      ≤ (if d₂ > p then ((d₂ - p : ℕ) : ℚ) * 0.5 else 0) := by
    split_ifs with h1 h2
    · have hc : ((d - p : ℕ) : ℚ) ≤ ((d₂ - p : ℕ) : ℚ) := by
        exact_mod_cast Nat.sub_le_sub_right h p
      linarith
    · omega
    · positivity
    · exact le_refl 0
  linarith

theorem scoreOfCounts_mono_oversized {o o₂ : ℕ} (v d t p : ℕ) (h : o ≤ o₂) :
    scoreOfCounts v d o t p ≤ scoreOfCounts v d o₂ t p := by
  unfold scoreOfCounts
  apply min_le_min _ le_rfl
  have hc : (o:ℚ) ≤ (o₂:ℚ) := by exact_mod_cast h
  have hmin : min ((o:ℚ) * 0.3) 2 ≤ min ((o₂:ℚ) * 0.3) 2 :=
    min_le_min (by linarith) le_rfl
  linarith

/-- C1: the messiness score equals exactly the spec formula
min(min(v*0.5, 4) + max(0, maxDepth - policy.max_depth)*0.5 +
min(oversized*0.3, 2) + (1 if types > 15 else 0), 10), where maxDepth
is the maximum key of depth_distribution (0 if empty); it is always in
[0, 10]; and - as the function of the four counts it depends on - it is
non-decreasing in violation count, depth overshoot and oversized-file
count with everything else held fixed. -/
theorem C1_messiness_score (pol : StandardsPolicy) (s : DirectorySnapshot)
    (v d o t v₂ d₂ o₂ : ℕ) :
    calculate_messiness_score pol s = specScoreFormula pol s ∧
    calculate_messiness_score pol s =
      scoreOfCounts s.naming_violations.length (maxKeyNat s.depth_distribution)
        s.largest_files.length s.file_types.length pol.max_depth ∧
    0 ≤ calculate_messiness_score pol s ∧
    calculate_messiness_score pol s ≤ 10 ∧
    (v ≤ v₂ →
      scoreOfCounts v d o t pol.max_depth ≤ scoreOfCounts v₂ d o t pol.max_depth) ∧
    (d ≤ d₂ →
      scoreOfCounts v d o t pol.max_depth ≤ scoreOfCounts v d₂ o t pol.max_depth) ∧
    (o ≤ o₂ →
      scoreOfCounts v d o t pol.max_depth ≤ scoreOfCounts v d o₂ t pol.max_depth) := by
  refine ⟨calculate_eq_specFormula pol s, calculate_eq_scoreOfCounts pol s, ?_, ?_,
    fun h => scoreOfCounts_mono_violations d o t pol.max_depth h,
    fun h => scoreOfCounts_mono_depth v o t pol.max_depth h,
    fun h => scoreOfCounts_mono_oversized v d t pol.max_depth h⟩
  · rw [calculate_eq_scoreOfCounts]
    exact scoreOfCounts_nonneg _ _ _ _ _
  · rw [calculate_eq_scoreOfCounts]
    exact scoreOfCounts_le_ten _ _ _ _ _

def sampleSnapshot : DirectorySnapshot := ⟨"t0", ".", 0, 0, [], [], [], "", []⟩

/-- C1 witness: the monotonicity hypotheses discharged at the concrete
counts (1,6,2,1) against (3,9,5), with the formula and bound conjuncts
taken at a concrete snapshot. -/
theorem C1_messiness_score_witness :
    (1 : ℕ) ≤ 3 ∧ (6 : ℕ) ≤ 9 ∧ (2 : ℕ) ≤ 5 ∧
    scoreOfCounts 1 6 2 1 defaultStandards.max_depth ≤
      scoreOfCounts 3 6 2 1 defaultStandards.max_depth ∧
    scoreOfCounts 1 6 2 1 defaultStandards.max_depth ≤
      scoreOfCounts 1 9 2 1 defaultStandards.max_depth ∧
    scoreOfCounts 1 6 2 1 defaultStandards.max_depth ≤
      scoreOfCounts 1 6 5 1 defaultStandards.max_depth ∧
    calculate_messiness_score defaultStandards sampleSnapshot =
      specScoreFormula defaultStandards sampleSnapshot ∧
    0 ≤ calculate_messiness_score defaultStandards sampleSnapshot := by
  have h := C1_messiness_score defaultStandards sampleSnapshot 1 6 2 1 3 9 5
  exact ⟨by decide, by decide, by decide, h.2.2.2.2.1 (by decide),
    h.2.2.2.2.2.1 (by decide), h.2.2.2.2.2.2 (by decide), h.1, h.2.2.1⟩

/-- C3 amended witness: the nonempty-window separation hypotheses
discharged at concrete windows - every recent score 2.0 below every
previous score classifies improving, and symmetrically worsening. -/
theorem C3_trend_classification_witness :
    trendClassify [0] [2, 2] = "improving" ∧
    trendClassify [2, 2] [0] = "worsening" := by
  constructor
  · exact (C3_trend_classification [0] [2, 2]).2.2.2.1 (by decide) (by decide) (by simp)
  · exact (C3_trend_classification [2, 2] [0]).2.2.2.2 (by decide) (by decide) (by simp)

theorem save_analysis_after_snapshot (db : LocalDatabase) (s : DirectorySnapshot)
    (sc : ℚ) (now analysis : String) (alert : Bool) :
    save_analysis (save_snapshot db s sc).1 (save_snapshot db s sc).2 now analysis alert =
      Except.ok
        { (save_snapshot db s sc).1 with
          analyses := (save_snapshot db s sc).1.analyses ++
            [⟨(save_snapshot db s sc).1.next_analysis_id, (save_snapshot db s sc).2,
              now, analysis, alert⟩]
          next_analysis_id := (save_snapshot db s sc).1.next_analysis_id + 1 } := by
  have hex : snapshotExists (save_snapshot db s sc).1 (save_snapshot db s sc).2 = true := by
    simp [save_snapshot, snapshotExists, List.any_append]
  unfold save_analysis
  rw [hex]
  simp

/-- Characterisation of one scan_and_alert cycle: the call never fails,
appends exactly one snapshot row carrying the computed score and one
analysis row whose alert flag is score >= threshold, and returns the
narrative exactly as produced by generate on the built prompt. -/
theorem scan_and_alert_spec (svc : NarrativeService)
    (encodeOpt : Option (String → List ℚ)) (pol : StandardsPolicy)
    (ts tsA path : String) (walk : List DirEntry) (db : LocalDatabase) (thr : ℚ) :
    ∃ result db₃,
      scan_and_alert svc encodeOpt pol ts tsA path walk db thr =
        Except.ok (result, db₃) ∧
      result.messiness_score =
        calculate_messiness_score pol (scan_directory pol ts path walk) ∧
      result.snapshot = scan_directory pol ts path walk ∧
      result.llm_analysis =
        generate svc (build_analysis_prompt (scan_directory pol ts path walk)
          (match encodeOpt with
           | none => ""
           | some encode =>
               contextOf (search (get_all_embeddings db)
                 (encode "messy directory violations") 2))) ∧
      result.alert =
        decide (calculate_messiness_score pol (scan_directory pol ts path walk) ≥ thr) ∧
      db₃.snapshots = db.snapshots ++
        [⟨db.next_snapshot_id, ts, path,
          (scan_directory pol ts path walk).total_files,
          (scan_directory pol ts path walk).total_dirs,
          calculate_messiness_score pol (scan_directory pol ts path walk),
          (scan_directory pol ts path walk).structure_hash,
          scan_directory pol ts path walk⟩] ∧
      db₃.analyses = db.analyses ++
        [⟨db.next_analysis_id, db.next_snapshot_id, tsA, result.llm_analysis,
          decide (calculate_messiness_score pol (scan_directory pol ts path walk) ≥ thr)⟩] ∧
      db₃.next_snapshot_id = db.next_snapshot_id + 1 ∧
      db₃.next_analysis_id = db.next_analysis_id + 1 ∧
      db₃.foreign_keys_on = db.foreign_keys_on ∧
      (encodeOpt = none → db₃.embeddings = db.embeddings ∧
        db₃.next_embedding_id = db.next_embedding_id) := by
  unfold scan_and_alert
  simp only [save_analysis_after_snapshot]
  cases encodeOpt with
  | none =>
    by_cases halert :
        thr ≤ calculate_messiness_score pol (scan_directory pol ts path walk) <;>
      refine ⟨_, _, rfl, ?_, ?_, ?_, ?_, ?_, ?_, ?_, ?_, ?_, fun _ => ⟨?_, ?_⟩⟩ <;>
        (simp [halert, analyze_with_llm, save_snapshot]; try exact ⟨rfl, rfl⟩)
  | some encode =>
    by_cases halert :
        thr ≤ calculate_messiness_score pol (scan_directory pol ts path walk) <;>
      refine ⟨_, _, rfl, ?_, ?_, ?_, ?_, ?_, ?_, ?_, ?_, ?_, fun hc => by cases hc⟩ <;>
        (simp [halert, analyze_with_llm, save_snapshot, save_embedding]; try exact ⟨rfl, rfl⟩)

/-- C6: a scan-and-alert cycle never fails on account of the narrative
service: the call returns normally for every service behaviour, the
snapshot row carrying the computed score and the analysis row are still
persisted, the alert boolean is score >= threshold, and when the
backend raises or is unavailable the stored narrative is the
descriptive placeholder produced by generate. -/
theorem C6_narrative_degradation (svc : NarrativeService)
    (encodeOpt : Option (String → List ℚ)) (pol : StandardsPolicy)
    (ts tsA path : String) (walk : List DirEntry) (db : LocalDatabase) (thr : ℚ) :
    (∃ result db₃,
      scan_and_alert svc encodeOpt pol ts tsA path walk db thr =
        Except.ok (result, db₃) ∧
      result.messiness_score =
        calculate_messiness_score pol (scan_directory pol ts path walk) ∧
      result.llm_analysis =
        generate svc (build_analysis_prompt (scan_directory pol ts path walk)
          (match encodeOpt with
           | none => ""
           | some encode =>
               contextOf (search (get_all_embeddings db)
                 (encode "messy directory violations") 2))) ∧
      result.alert =
        decide (calculate_messiness_score pol (scan_directory pol ts path walk) ≥ thr) ∧
      db₃.snapshots = db.snapshots ++
        [⟨db.next_snapshot_id, ts, path,
          (scan_directory pol ts path walk).total_files,
          (scan_directory pol ts path walk).total_dirs,
          calculate_messiness_score pol (scan_directory pol ts path walk),
          (scan_directory pol ts path walk).structure_hash,
          scan_directory pol ts path walk⟩] ∧
      db₃.analyses = db.analyses ++
        [⟨db.next_analysis_id, db.next_snapshot_id, tsA, result.llm_analysis,
          decide (calculate_messiness_score pol (scan_directory pol ts path walk) ≥ thr)⟩]) ∧
    (∀ f p, generate (NarrativeService.raises f) p =
      "Error with local LLM: " ++ f p ++
      "\nEnsure Ollama is running: ollama serve") ∧
    (∀ p, generate NarrativeService.unavailable p =
      "Local LLM not available. Install ollama or llama-cpp-python") := by
  obtain ⟨r, d3, h1, h2, h3, h4, h5, h6, h7, _⟩ :=
    scan_and_alert_spec svc encodeOpt pol ts tsA path walk db thr
  exact ⟨⟨r, d3, h1, h2, h4, h5, h6, h7⟩, fun f p => rfl, fun p => rfl⟩

def emptyScanScore (i : ℕ) : ℚ :=
  calculate_messiness_score defaultStandards
    (scan_directory defaultStandards (tsOf i) "." [])

def runSnapRow (i : ℕ) : SnapshotRow :=
  ⟨i + 1, tsOf i, ".", 0, 0, emptyScanScore i,
   md5Hex (structureStr 0 0 []), scan_directory defaultStandards (tsOf i) "." []⟩

def runAnaRow (i : ℕ) : AnalysisRow :=
  ⟨i + 1, i + 1, tsOf i,
   "Local LLM not available. Install ollama or llama-cpp-python",
   decide (emptyScanScore i ≥ 5)⟩

theorem runScans_spec (K : ℕ) :
    (runScans K).snapshots = (List.range K).map runSnapRow ∧
    (runScans K).analyses = (List.range K).map runAnaRow ∧
    (runScans K).next_snapshot_id = K + 1 ∧
    (runScans K).next_analysis_id = K + 1 ∧
    (runScans K).foreign_keys_on = false := by
  induction K with
  | zero => exact ⟨rfl, rfl, rfl, rfl, rfl⟩
  | succ n ih =>
    obtain ⟨result, db₃, heq, hms, hsnp, hllm, halt, hsnaps, hanas, hnsi, hnai, hfk, hemb⟩ :=
      scan_and_alert_spec NarrativeService.unavailable none defaultStandards
        (tsOf n) (tsOf n) "." [] (runScans n) 5
    have hrun : runScans (n + 1) = db₃ := by
      show (match scan_and_alert NarrativeService.unavailable none defaultStandards
          (tsOf n) (tsOf n) "." [] (runScans n) 5 with
        | Except.ok r => r.2
        | Except.error _ => runScans n) = db₃
      rw [heq]
    refine ⟨?_, ?_, ?_, ?_, ?_⟩
    · rw [hrun, hsnaps, ih.1, ih.2.2.1, List.range_succ, List.map_append]
      rfl
    · rw [hrun, hanas, ih.2.1, ih.2.2.1, ih.2.2.2.1, hllm, List.range_succ, List.map_append]
      rfl
    · rw [hrun, hnsi, ih.2.2.1]
    · rw [hrun, hnai, ih.2.2.2.1]
    · rw [hrun, hfk, ih.2.2.2.2]

theorem length_join_of_forall_single {α : Type} (L : List (List α))
    (h : ∀ l ∈ L, l.length = 1) : L.join.length = L.length := by
  induction L with
  | nil => rfl
  | cons x xs ih =>
    simp only [List.join_cons, List.length_append, List.length_cons]
    rw [h x (List.mem_cons_self x xs), ih (fun l hl => h l (List.mem_cons_of_mem x hl))]
    omega

theorem filter_anaRows (K i : ℕ) (hi : i < K) :
    ((List.range K).map runAnaRow).filter (fun a => a.snapshot_id == i + 1)
      = [runAnaRow i] := by
  induction K with
  | zero => omega
  | succ n ih =>
    rw [List.range_succ, List.map_append, List.filter_append]
    by_cases h : i < n
    · rw [ih h]
      have hne : ((runAnaRow n).snapshot_id == i + 1) = false := by
        simp only [runAnaRow]
        simp
        omega
      simp [hne]
    · have hin : i = n := by omega
      subst hin
      have hnil : ((List.range i).map runAnaRow).filter
          (fun a => a.snapshot_id == i + 1) = [] := by
        rw [List.filter_eq_nil]
        intro a ha
        rcases List.mem_map.mp ha with ⟨j, hj, rfl⟩
        have hji : j < i := List.mem_range.mp hj
        simp only [runAnaRow]
        simp
        omega
      rw [hnil]
      simp [runAnaRow]

theorem length_historyJoin_runScans (K : ℕ) :
    (historyJoin (runScans K)).length = K := by
  obtain ⟨hs, ha, _, _, _⟩ := runScans_spec K
  unfold historyJoin
  rw [hs, ha]
  rw [length_join_of_forall_single]
  · simp
  · intro l hl
    rcases List.mem_map.mp hl with ⟨s, hsmem, rfl⟩
    rcases List.mem_map.mp hsmem with ⟨i, hi, rfl⟩
    have hfilter := filter_anaRows K i (List.mem_range.mp hi)
    have hred : ((List.range K).map runAnaRow).filter
        (fun a => a.snapshot_id == (runSnapRow i).id) = [runAnaRow i] := hfilter
    rw [hred]
    rfl

theorem report_lengths (K : ℕ) (generated : String) :
    (export_report (runScans K) generated).statistics.total_scans = K ∧
    (export_report (runScans K) generated).recent_history.length = min K 20 := by
  constructor
  · show (runScans K).snapshots.length = K
    rw [(runScans_spec K).1]
    simp
  · show (get_history (runScans K) 20).length = min K 20
    unfold get_history
    rw [List.length_take, length_sortD, length_historyJoin_runScans]
    omega

/-- C5 (amended): after K scans the exported report has
statistics.total_scans = K but its recent_history has length
min(K, 20), because export_report calls get_history with limit 20. -/
theorem C5_report_roundtrip (K : ℕ) (generated : String) :
    (export_report (runScans K) generated).statistics.total_scans = K ∧
    (export_report (runScans K) generated).recent_history.length = min K 20 :=
  report_lengths K generated

/-- C5 counterexample: after 21 scans the report carries only 20
history rows, not min(21, 50) = 21 as claimed. -/
theorem C5_counterexample :
    (export_report (runScans 21) "now").statistics.total_scans = 21 ∧
    (export_report (runScans 21) "now").recent_history.length = 20 ∧
    (export_report (runScans 21) "now").recent_history.length ≠ min 21 50 := by
  have h := report_lengths 21 "now"
  refine ⟨h.1, ?_, ?_⟩
  · rw [h.2]
    decide
  · rw [h.2]
    decide

theorem keysNodup_filesFold (pol : StandardsPolicy) (parts : List String)
    (files : List FileEntry) :
    ∀ acc : ScanAcc, keysNodup acc.file_types →
      keysNodup ((files.foldl (fileStep pol parts) acc).file_types) := by
  induction files with
  | nil => exact fun acc h => h
  | cons f fs ih => exact fun acc h => ih _ (keysNodup_bump h)

theorem keysNodup_scanFold (pol : StandardsPolicy) (walk : List DirEntry) :
    keysNodup (scanFold pol walk).file_types := by
  suffices h : ∀ acc : ScanAcc, keysNodup acc.file_types →
      keysNodup ((walk.foldl (dirStep pol) acc).file_types) by
    exact h ⟨0, 0, [], [], [], []⟩ (by simp [keysNodup, keysOf])
  induction walk with
  | nil => exact fun acc h => h
  | cons d ds ih =>
    intro acc h
    exact ih _ (keysNodup_filesFold pol d.relParts d.files _ h)

theorem sortAssoc_pairwise (l : List (String × ℕ)) :
    (sortAssoc l).Pairwise (fun p q => strLeB p.1 q.1 = true) := by
  unfold sortAssoc
  refine @pairwise_sortD (String × ℕ) keyLe (fun p q => strLeB p.1 q.1 = true)
    (fun a b c hab hbc => strLeB_trans hab hbc) l ?_
  intro a _ b _
  refine ⟨fun h => h, fun h => ?_⟩
  rcases strLeB_total a.1 b.1 with h2 | h2
  · have hh : keyLe a b = true := h2
    rw [hh] at h
    exact Bool.noConfusion h
  · exact h2

theorem lookupA_sortAssoc (l : List (String × ℕ)) (hnd : keysNodup l) (k : String) :
    lookupA k (sortAssoc l) = lookupA k l :=
  lookupA_perm (sortD_perm keyLe l) (keysNodup_sortAssoc hnd) k

theorem file_types_canonical {A B : List (String × ℕ)}
    (hA : keysNodup A) (hB : keysNodup B)
    (h : ∀ k, lookupA k A = lookupA k B) : sortAssoc A = sortAssoc B := by
  apply sorted_assoc_ext (sortAssoc_pairwise A) (keysNodup_sortAssoc hA)
    (sortAssoc_pairwise B) (keysNodup_sortAssoc hB)
  intro k
  rw [lookupA_sortAssoc A hA k, lookupA_sortAssoc B hB k]
  exact h k

/-- C7: structure_hash is a function of total_files, total_dirs and the
file_types mapping only - two scans (under any policies, timestamps,
root paths and walks) that agree on the two totals and on the
file-types mapping (as a mapping, i.e. extensionally) have identical
hashes, since json.dumps(..., sort_keys=True) canonicalises the dict
before MD5. -/
theorem C7_structure_hash_extensional
    (pol₁ pol₂ : StandardsPolicy) (ts₁ ts₂ path₁ path₂ : String)
    (W₁ W₂ : List DirEntry)
    (hf : (scan_directory pol₁ ts₁ path₁ W₁).total_files
        = (scan_directory pol₂ ts₂ path₂ W₂).total_files)
    (hd : (scan_directory pol₁ ts₁ path₁ W₁).total_dirs
        = (scan_directory pol₂ ts₂ path₂ W₂).total_dirs)
    (ht : ∀ k, lookupA k (scan_directory pol₁ ts₁ path₁ W₁).file_types
        = lookupA k (scan_directory pol₂ ts₂ path₂ W₂).file_types) :
    (scan_directory pol₁ ts₁ path₁ W₁).structure_hash
      = (scan_directory pol₂ ts₂ path₂ W₂).structure_hash := by
  have htf : (scanFold pol₁ W₁).total_files = (scanFold pol₂ W₂).total_files := hf
  have htd : (scanFold pol₁ W₁).total_dirs = (scanFold pol₂ W₂).total_dirs := hd
  have hty : sortAssoc (scanFold pol₁ W₁).file_types
      = sortAssoc (scanFold pol₂ W₂).file_types :=
    file_types_canonical (keysNodup_scanFold pol₁ W₁) (keysNodup_scanFold pol₂ W₂)
      (fun k => ht k)
  show md5Hex (structureStr (scanFold pol₁ W₁).total_files
      (scanFold pol₁ W₁).total_dirs (scanFold pol₁ W₁).file_types)
    = md5Hex (structureStr (scanFold pol₂ W₂).total_files
      (scanFold pol₂ W₂).total_dirs (scanFold pol₂ W₂).file_types)
  unfold structureStr typesJson
  rw [htf, htd, hty]

def w7a : List DirEntry :=
  [⟨[], 0, [⟨"a.txt", none⟩, ⟨"b.md", none⟩, ⟨"c.txt", none⟩]⟩]

def w7b : List DirEntry :=
  [⟨[], 0, [⟨"x y.txt", none⟩, ⟨"keep.md", none⟩, ⟨"old.txt", none⟩]⟩]

/-- C7 witness: two walks with entirely different file names, one of
which produces naming violations (a space and a forbidden pattern)
while the other produces none, but with equal counts and equal
file-type mappings - the hashes coincide by the theorem. -/
theorem C7_structure_hash_witness :
    (scan_directory defaultStandards "t1" "." w7a).total_files
      = (scan_directory defaultStandards "t2" "other" w7b).total_files ∧
    (scan_directory defaultStandards "t1" "." w7a).total_dirs
      = (scan_directory defaultStandards "t2" "other" w7b).total_dirs ∧
    (scan_directory defaultStandards "t1" "." w7a).naming_violations
      ≠ (scan_directory defaultStandards "t2" "other" w7b).naming_violations ∧
    (scan_directory defaultStandards "t1" "." w7a).structure_hash
      = (scan_directory defaultStandards "t2" "other" w7b).structure_hash := by
  refine ⟨by decide, by decide, by decide, ?_⟩
  exact C7_structure_hash_extensional defaultStandards defaultStandards "t1" "t2"
    "." "other" w7a w7b (by decide) (by decide) (fun k => rfl)

theorem simGe_iff_cosineSim {q : List ℚ} {x y : CacheEntry}
    (hx : 0 < sumSq x.embedding) (hy : 0 < sumSq y.embedding)
    (hq : 0 < sumSq q) :
    simGe q x y = true ↔ cosineSim y.embedding q ≤ cosineSim x.embedding q := by
  unfold simGe cosineSim
  set d₁ := dotQ x.embedding q with hd₁
  set s₁ := sumSq x.embedding with hs₁
  set d₂ := dotQ y.embedding q with hd₂
  set s₂ := sumSq y.embedding with hs₂
  set sq := sumSq q with hsq
  have hs₁r : (0:ℝ) < ((s₁ : ℚ) : ℝ) := by exact_mod_cast hx
  have hs₂r : (0:ℝ) < ((s₂ : ℚ) : ℝ) := by exact_mod_cast hy
  have hsqr : (0:ℝ) < ((sq : ℚ) : ℝ) := by exact_mod_cast hq
  have hR₁ : (0:ℝ) < Real.sqrt ((s₁ : ℚ) : ℝ) := Real.sqrt_pos.mpr hs₁r
  have hR₂ : (0:ℝ) < Real.sqrt ((s₂ : ℚ) : ℝ) := Real.sqrt_pos.mpr hs₂r
  have hRq : (0:ℝ) < Real.sqrt ((sq : ℚ) : ℝ) := Real.sqrt_pos.mpr hsqr
  have hdiv : (((d₂ : ℚ) : ℝ) / (Real.sqrt ((s₂ : ℚ) : ℝ) * Real.sqrt ((sq : ℚ) : ℝ)) ≤
      ((d₁ : ℚ) : ℝ) / (Real.sqrt ((s₁ : ℚ) : ℝ) * Real.sqrt ((sq : ℚ) : ℝ))) ↔
      ((d₂ : ℚ) : ℝ) * Real.sqrt ((s₁ : ℚ) : ℝ) ≤
        ((d₁ : ℚ) : ℝ) * Real.sqrt ((s₂ : ℚ) : ℝ) := by
    rw [div_le_div_iff (by positivity) (by positivity)]
    constructor
    · intro h
      have h2 : ((d₂ : ℚ) : ℝ) * Real.sqrt ((s₁ : ℚ) : ℝ) * Real.sqrt ((sq : ℚ) : ℝ) ≤
          ((d₁ : ℚ) : ℝ) * Real.sqrt ((s₂ : ℚ) : ℝ) * Real.sqrt ((sq : ℚ) : ℝ) := by
        ring_nf
        ring_nf at h
        linarith
      exact (mul_le_mul_right hRq).mp h2
    · intro h
      have h2 := (mul_le_mul_right hRq).mpr h
      ring_nf at h2 ⊢
      linarith
  rw [hdiv]
  by_cases h₁ : (0:ℚ) ≤ d₁ <;> by_cases h₂ : (0:ℚ) ≤ d₂
  · simp only [h₁, h₂, if_true, decide_eq_true_eq]
    have hA : (0:ℝ) ≤ ((d₂ : ℚ) : ℝ) * Real.sqrt ((s₁ : ℚ) : ℝ) :=
      mul_nonneg (by exact_mod_cast h₂) hR₁.le
    have hB : (0:ℝ) ≤ ((d₁ : ℚ) : ℝ) * Real.sqrt ((s₂ : ℚ) : ℝ) :=
      mul_nonneg (by exact_mod_cast h₁) hR₂.le
    rw [← pow_le_pow_iff_left₀ hA hB (two_ne_zero)]
    rw [mul_pow, mul_pow, Real.sq_sqrt hs₁r.le, Real.sq_sqrt hs₂r.le]
    constructor <;> intro h <;> exact_mod_cast h
  · simp only [h₁, h₂, if_true, if_false]
    have hd₂neg : d₂ < 0 := lt_of_not_le h₂
    have hle : ((d₂ : ℚ) : ℝ) * Real.sqrt ((s₁ : ℚ) : ℝ) ≤
        ((d₁ : ℚ) : ℝ) * Real.sqrt ((s₂ : ℚ) : ℝ) := by
      have hL : ((d₂ : ℚ) : ℝ) * Real.sqrt ((s₁ : ℚ) : ℝ) ≤ 0 :=
        mul_nonpos_of_nonpos_of_nonneg (by exact_mod_cast hd₂neg.le) hR₁.le
      have hR : (0:ℝ) ≤ ((d₁ : ℚ) : ℝ) * Real.sqrt ((s₂ : ℚ) : ℝ) :=
        mul_nonneg (by exact_mod_cast h₁) hR₂.le
      linarith
    exact iff_of_true (by simp) hle
  · simp only [h₁, h₂, if_true, if_false]
    have hd₁neg : d₁ < 0 := lt_of_not_le h₁
    have hnle : ¬ (((d₂ : ℚ) : ℝ) * Real.sqrt ((s₁ : ℚ) : ℝ) ≤
        ((d₁ : ℚ) : ℝ) * Real.sqrt ((s₂ : ℚ) : ℝ)) := by
      push_neg
      have hL : (0:ℝ) ≤ ((d₂ : ℚ) : ℝ) * Real.sqrt ((s₁ : ℚ) : ℝ) :=
        mul_nonneg (by exact_mod_cast h₂) hR₁.le
      have hR : ((d₁ : ℚ) : ℝ) * Real.sqrt ((s₂ : ℚ) : ℝ) < 0 :=
        mul_neg_of_neg_of_pos (by exact_mod_cast hd₁neg) hR₂
      linarith
    exact iff_of_false (by simp) hnle
  · simp only [h₁, h₂, if_false, decide_eq_true_eq]
    have hd₁neg : d₁ < 0 := lt_of_not_le h₁
    have hd₂neg : d₂ < 0 := lt_of_not_le h₂
    have hA : (0:ℝ) ≤ -(((d₁ : ℚ) : ℝ) * Real.sqrt ((s₂ : ℚ) : ℝ)) := by
      have : ((d₁ : ℚ) : ℝ) * Real.sqrt ((s₂ : ℚ) : ℝ) ≤ 0 :=
        mul_nonpos_of_nonpos_of_nonneg (by exact_mod_cast hd₁neg.le) hR₂.le
      linarith
    have hB : (0:ℝ) ≤ -(((d₂ : ℚ) : ℝ) * Real.sqrt ((s₁ : ℚ) : ℝ)) := by
      have : ((d₂ : ℚ) : ℝ) * Real.sqrt ((s₁ : ℚ) : ℝ) ≤ 0 :=
        mul_nonpos_of_nonpos_of_nonneg (by exact_mod_cast hd₂neg.le) hR₁.le
      linarith
    rw [show (((d₂ : ℚ) : ℝ) * Real.sqrt ((s₁ : ℚ) : ℝ) ≤
        ((d₁ : ℚ) : ℝ) * Real.sqrt ((s₂ : ℚ) : ℝ)) ↔
        (-(((d₁ : ℚ) : ℝ) * Real.sqrt ((s₂ : ℚ) : ℝ)) ≤
          -(((d₂ : ℚ) : ℝ) * Real.sqrt ((s₁ : ℚ) : ℝ))) from (neg_le_neg_iff).symm]
    rw [← pow_le_pow_iff_left₀ hA hB (two_ne_zero)]
    simp only [show ∀ z : ℝ, (-z) ^ 2 = z ^ 2 from fun z => by ring, mul_pow,
      Real.sq_sqrt hs₁r.le, Real.sq_sqrt hs₂r.le]
    constructor <;> intro h <;> exact_mod_cast h

theorem search_eq_sort_take {cache : List CacheEntry} (hne : cache ≠ [])
    (q : List ℚ) (k : ℕ) :
    search cache q k = (sortD (simGe q) cache).take k := by
  unfold search
  rw [if_neg]
  simp [List.isEmpty_iff, hne]

/-- C8: search on an empty cache returns the empty sequence (and, being
a total function, never raises); with k at least the cache size it
returns the whole cache - a permutation of it - sorted by descending
cosine similarity dot(a,b)/(norm a * norm b), the similarity being
well defined because every cached vector and the query are nonzero. -/
theorem C8_search_full_cache (cache : List CacheEntry) (q : List ℚ) (k : ℕ) :
    search ([] : List CacheEntry) q k = [] ∧
    (cache.length ≤ k → (search cache q k).Perm cache) ∧
    (cache.length ≤ k → 0 < sumSq q → (∀ e ∈ cache, 0 < sumSq e.embedding) →
      (search cache q k).Pairwise
        (fun a b => cosineSim b.embedding q ≤ cosineSim a.embedding q)) := by
  refine ⟨rfl, ?_, ?_⟩
  · intro hk
    cases cache with
    | nil => simp [search]
    | cons c cs =>
      rw [search_eq_sort_take (List.cons_ne_nil c cs),
        List.take_of_length_le (by rw [length_sortD]; exact hk)]
      exact sortD_perm _ _
  · intro hk hq hpos
    cases cache with
    | nil => simp [search]
    | cons c cs =>
      rw [search_eq_sort_take (List.cons_ne_nil c cs),
        List.take_of_length_le (by rw [length_sortD]; exact hk)]
      refine @pairwise_sortD CacheEntry (simGe q)
        (fun a b => cosineSim b.embedding q ≤ cosineSim a.embedding q)
        (fun a b c hab hbc => le_trans hbc hab) (c :: cs) ?_
      intro a ha b hb
      have hiff := simGe_iff_cosineSim (hpos a ha) (hpos b hb) hq
      refine ⟨fun h => hiff.mp h, fun h => ?_⟩
      by_contra hc
      have hlt : cosineSim b.embedding q < cosineSim a.embedding q := not_le.mp hc
      have h2 := hiff.mpr hlt.le
      rw [h] at h2
      exact Bool.noConfusion h2

def cacheA : CacheEntry := ⟨1, [0, 1], sampleSnapshot⟩

def cacheB : CacheEntry := ⟨2, [1, 0], sampleSnapshot⟩

/-- C8 witness: a two-entry cache of nonzero vectors with k = 5 larger
than the cache; the search result is a sorted permutation of the whole
cache by the theorem. -/
theorem C8_search_full_cache_witness :
    (0:ℚ) < sumSq [1, 0] ∧
    (∀ e ∈ [cacheA, cacheB], 0 < sumSq e.embedding) ∧
    ([cacheA, cacheB] : List CacheEntry).length ≤ 5 ∧
    (search [cacheA, cacheB] [1, 0] 5).Perm [cacheA, cacheB] ∧
    (search [cacheA, cacheB] [1, 0] 5).Pairwise
      (fun a b => cosineSim b.embedding [1, 0] ≤ cosineSim a.embedding [1, 0]) := by
  have hq : (0:ℚ) < sumSq [1, 0] := by simp [sumSq, dotQ]
  have hpos : ∀ e ∈ [cacheA, cacheB], 0 < sumSq e.embedding := by
    simp [cacheA, cacheB, sumSq, dotQ]
  have hk : ([cacheA, cacheB] : List CacheEntry).length ≤ 5 := by simp
  exact ⟨hq, hpos, hk, (C8_search_full_cache [cacheA, cacheB] [1, 0] 5).2.1 hk,
    (C8_search_full_cache [cacheA, cacheB] [1, 0] 5).2.2 hk hq hpos⟩

/-- C9 (amended): among entries of equal cosine similarity the
EARLIER-stored one precedes the later in the search result: the sort is
stable and the cache is loaded in insertion (chronological) order, so
ties are ordered oldest-first, not most-recent-first. -/
theorem C9_search_tie_order (q : List ℚ) (k : ℕ) (cache : List CacheEntry)
    (a b : CacheEntry) (hnd : cache.Nodup) (hsub : [a, b].Sublist cache)
    (hq : 0 < sumSq q) (ha : 0 < sumSq a.embedding) (hb : 0 < sumSq b.embedding)
    (htie : cosineSim a.embedding q = cosineSim b.embedding q) :
    [a, b].Sublist (sortD (simGe q) cache) ∧
    (b ∈ search cache q k → [a, b].Sublist (search cache q k)) := by
  have hr : simGe q a b = true :=
    (simGe_iff_cosineSim ha hb hq).mpr (le_of_eq htie.symm)
  have h1 : [a, b].Sublist (sortD (simGe q) cache) := sortD_stable hr hsub
  refine ⟨h1, fun hbmem => ?_⟩
  have hne : cache ≠ [] := by
    intro hc
    rw [hc] at hsub
    cases hsub
  rw [search_eq_sort_take hne] at hbmem ⊢
  exact sublist_pair_take ((sortD_perm (simGe q) cache).nodup_iff.mpr hnd) h1 hbmem

def entOld : CacheEntry := ⟨1, [1, 0], sampleSnapshot⟩

def entNew : CacheEntry := ⟨2, [2, 0], sampleSnapshot⟩

theorem cosineSim_tie_example :
    cosineSim entOld.embedding [1, 0] = cosineSim entNew.embedding [1, 0] := by
  have e1 : dotQ [(1:ℚ), 0] [1, 0] = 1 := by norm_num [dotQ]
  have e2 : sumSq [(1:ℚ), 0] = 1 := by norm_num [sumSq, dotQ]
  have e3 : dotQ [(2:ℚ), 0] [1, 0] = 2 := by norm_num [dotQ]
  have e4 : sumSq [(2:ℚ), 0] = 4 := by norm_num [sumSq, dotQ]
  show cosineSim [(1:ℚ), 0] [1, 0] = cosineSim [(2:ℚ), 0] [1, 0]
  unfold cosineSim
  rw [e1, e2, e3, e4]
  rw [show ((4:ℚ):ℝ) = 2 ^ 2 by norm_num, Real.sqrt_sq (by norm_num : (0:ℝ) ≤ 2)]
  rw [show ((1:ℚ):ℝ) = 1 by norm_num, Real.sqrt_one]
  norm_num

/-- C9 counterexample: two cached snapshots with equal cosine
similarity to the query; the search returns the earlier-stored entry
(id 1) before the more recently stored one (id 2), refuting the claimed
most-recent-first tie order. -/
theorem C9_counterexample :
    cosineSim entOld.embedding [1, 0] = cosineSim entNew.embedding [1, 0] ∧
    (search [entOld, entNew] [1, 0] 3).map (fun e => e.snapshot_id) = [1, 2] ∧
    (search [entOld, entNew] [1, 0] 3).map (fun e => e.snapshot_id) ≠ [2, 1] := by
  have hsim : simGe [1, 0] entOld entNew = true := by
    simp only [simGe, entOld, entNew, decide_eq_true_eq]
    norm_num [dotQ, sumSq]
  have hsort : sortD (simGe [1, 0]) [entOld, entNew] = [entOld, entNew] := by
    show insertD (simGe [1, 0]) entOld (insertD (simGe [1, 0]) entNew []) = _
    simp [insertD, hsim]
  have hmap : (search [entOld, entNew] [1, 0] 3).map (fun e => e.snapshot_id) = [1, 2] := by
    rw [search_eq_sort_take (by simp : ([entOld, entNew] : List CacheEntry) ≠ []), hsort]
    rfl
  refine ⟨cosineSim_tie_example, hmap, ?_⟩
  rw [hmap]
  decide

theorem entNew_sumSq_pos : (0:ℚ) < sumSq entNew.embedding := by
  norm_num [entNew, sumSq, dotQ]

/-- C9 amended witness: the tie hypotheses discharged at the concrete
two-entry cache of the counterexample, via the amended theorem. -/
theorem C9_search_tie_order_witness :
    ([entOld, entNew] : List CacheEntry).Nodup ∧
    (0:ℚ) < sumSq [1, 0] ∧ 0 < sumSq entOld.embedding ∧ 0 < sumSq entNew.embedding ∧
    [entOld, entNew].Sublist ([entOld, entNew] : List CacheEntry) ∧
    [entOld, entNew].Sublist (sortD (simGe [1, 0]) [entOld, entNew]) := by
  have hnd : ([entOld, entNew] : List CacheEntry).Nodup := by
    simp [entOld, entNew]
  have hq : (0:ℚ) < sumSq [1, 0] := by simp [sumSq, dotQ]
  have ha : (0:ℚ) < sumSq entOld.embedding := by simp [entOld, sumSq, dotQ]
  have hb : (0:ℚ) < sumSq entNew.embedding := entNew_sumSq_pos
  exact ⟨hnd, hq, ha, hb, List.Sublist.refl _,
    (C9_search_tie_order [1, 0] 3 [entOld, entNew] entOld entNew hnd
      (List.Sublist.refl _) hq ha hb cosineSim_tie_example).1⟩
